import Mathlib

/-!
# Verification of the csvtochart data transformation engine

Shallow embedding of the core of `src/app/page.tsx` (Column Profiler and the
four Series Transformer strategies) and `src/app/api/generate/route.ts`
(Chart Specification Validator), together with theorems settling the frozen
claims about them.

Modelling conventions:
* A raw table row is an insertion-ordered association list from column name to
  raw string cell (what PapaParse produces with `header: true`).
* JavaScript objects are modelled as insertion-ordered association lists.
  Property assignment updates in place (keeping the key's position) or appends
  a fresh key at the end, matching JS property-creation order.  `delete`
  removes the key; assigning to a deleted key re-adds it at the end.
* `Object.values` enumerates array-index keys (canonical decimal integer
  strings below 2^32 - 1) first, in ascending numeric order, then the
  remaining keys in insertion order (ECMAScript OrdinaryOwnPropertyKeys).
* JS numbers are modelled as `JVal.num (q : ℚ)` plus a `JVal.nan` point.
  `undefined` is collapsed into `nan`: in every operation this code performs
  on it (arithmetic, truthiness tests, `isNaN`) `undefined` and `NaN` behave
  identically.  A missing row cell is likewise collapsed to the string
  "undefined" when used as an object key (exactly the string JS produces
  there) and fails numeric parsing just as `undefined` does.
* `parseFloat` is modelled as `parseFloat?`: skip leading whitespace, parse
  the longest decimal-literal prefix (sign, digits, optional fraction,
  optional exponent), `none` when no digits are found (JS `NaN`).  The JS
  "Infinity" literal is not modelled.
-/

/- Core marks the rational operations irreducible; re-open them so that
concrete runs of the embedded code can be checked by `decide`/`rfl`. -/
attribute [local semireducible] Rat.add Rat.mul Rat.sub Rat.inv Rat.ofScientific

/-- A JavaScript value as it occurs in transformer records: a raw string
cell, a finite number, or NaN (also standing for `undefined`, see above). -/
inductive JVal where
  | str (s : String)
  | num (q : ℚ)
  | nan
deriving DecidableEq, Repr

/-- JS truthiness for the values above: nonempty strings and nonzero numbers
are truthy; `NaN`/`undefined` are falsy. -/
def JVal.truthy : JVal → Bool
  | .str s => s ≠ ""
  | .num q => q ≠ 0
  | .nan => false

/-- JS `+` as used by the transformer.  Both accumulator and increment are
numbers on every path exercised by the theorems below; a string operand (which
JS would turn into concatenation) only arises under key collisions between a
synthesized `_count` key and the x column's field, and is collapsed to `nan`.
`NaN`/`undefined` plus anything is `NaN`. -/
def JVal.add : JVal → JVal → JVal
  | .num a, .num b => .num (a + b)
  | _, _ => .nan

/-- JS `/` as used by the transformer.  Division by the number 0 is
unreachable here (the divisor always passes through `x || 1`), and string
operands are collapsed like in `JVal.add`; `NaN`/`undefined` divided by
anything is `NaN`. -/
def JVal.div : JVal → JVal → JVal
  | .num a, .num b => if b = 0 then .nan else .num (a / b)
  | _, _ => .nan

/-- JS `isNaN` on the values reaching the scatter filter.  Both tested fields
have just been assigned numbers, so the `str` case is unreachable there; JS
would coerce the string first, which is not modelled. -/
def JVal.isNaNJS : JVal → Bool
  | .num _ => false
  | .nan => true
  | .str _ => true

/-- `v || 1` as used for the average divisor. -/
def JVal.orOne (v : JVal) : JVal := if v.truthy then v else .num 1

/-! ## JavaScript objects as insertion-ordered association lists -/

/-- Property lookup (first, and in our objects only, binding of the key). -/
def jget [DecidableEq α] : List (α × β) → α → Option β
  | [], _ => none
  | (k, v) :: r, k' => if k = k' then some v else jget r k'

/-- Property assignment: update in place when the key exists (keeping its
position, as JS does), otherwise append the new key at the end. -/
def jset [DecidableEq α] : List (α × β) → α → β → List (α × β)
  | [], k, v => [(k, v)]
  | (k', v') :: r, k, v => if k' = k then (k, v) :: r else (k', v') :: jset r k v

/-- JS `delete o[k]`. -/
def jdel [DecidableEq α] (o : List (α × β)) (k : α) : List (α × β) :=
  o.filter (fun p => p.1 ≠ k)

@[simp] theorem jget_nil [DecidableEq α] (k : α) : jget ([] : List (α × β)) k = none := rfl

theorem jget_cons [DecidableEq α] (k k' : α) (v : β) (r : List (α × β)) :
    jget ((k, v) :: r) k' = if k = k' then some v else jget r k' := rfl

@[simp] theorem jget_jset_self [DecidableEq α] (o : List (α × β)) (k : α) (v : β) :
    jget (jset o k v) k = some v := by
  induction o with
  | nil => simp [jget, jset]
  | cons p r ih =>
    obtain ⟨k', v'⟩ := p
    by_cases h : k' = k
    · subst h; simp [jget, jset]
    · simp [jget, jset, h, ih]

@[simp] theorem jget_jset_ne [DecidableEq α] (o : List (α × β)) (k k' : α) (v : β)
    (h : k ≠ k') : jget (jset o k v) k' = jget o k' := by
  induction o with
  | nil => simp [jget, jset, h]
  | cons p r ih =>
    obtain ⟨k₀, v₀⟩ := p
    by_cases h₀ : k₀ = k
    · subst h₀; simp [jget, jset, h]
    · simp [jget, jset, h₀, ih]

theorem jdel_cons [DecidableEq α] (k₀ k : α) (v₀ : β) (r : List (α × β)) :
    jdel ((k₀, v₀) :: r) k = if k₀ = k then jdel r k else (k₀, v₀) :: jdel r k := by
  by_cases h : k₀ = k <;> simp [jdel, List.filter_cons, h]

@[simp] theorem jget_jdel_self [DecidableEq α] (o : List (α × β)) (k : α) :
    jget (jdel o k) k = none := by
  induction o with
  | nil => rfl
  | cons p r ih =>
    obtain ⟨k₀, v₀⟩ := p
    rw [jdel_cons]
    by_cases h₀ : k₀ = k
    · rw [if_pos h₀]; exact ih
    · rw [if_neg h₀, jget_cons, if_neg h₀]; exact ih

@[simp] theorem jget_jdel_ne [DecidableEq α] (o : List (α × β)) (k k' : α) (h : k ≠ k') :
    jget (jdel o k) k' = jget o k' := by
  induction o with
  | nil => rfl
  | cons p r ih =>
    obtain ⟨k₀, v₀⟩ := p
    rw [jdel_cons]
    by_cases h₀ : k₀ = k
    · subst h₀
      rw [if_pos rfl, jget_cons, if_neg h]
      exact ih
    · rw [if_neg h₀, jget_cons, jget_cons]
      by_cases h₁ : k₀ = k'
      · rw [if_pos h₁, if_pos h₁]
      · rw [if_neg h₁, if_neg h₁]; exact ih

theorem jset_keys_mem [DecidableEq α] (o : List (α × β)) (k : α) (v : β)
    (h : k ∈ o.map Prod.fst) : (jset o k v).map Prod.fst = o.map Prod.fst := by
  induction o with
  | nil => simp at h
  | cons p r ih =>
    obtain ⟨k₀, v₀⟩ := p
    by_cases h₀ : k₀ = k
    · subst h₀; simp [jset]
    · have hk : k ∈ r.map Prod.fst := by
        simp only [List.map_cons, List.mem_cons] at h
        exact h.resolve_left (fun he => h₀ he.symm)
      simp [jset, h₀, ih hk]

theorem jset_keys_fresh [DecidableEq α] (o : List (α × β)) (k : α) (v : β)
    (h : k ∉ o.map Prod.fst) : (jset o k v).map Prod.fst = o.map Prod.fst ++ [k] := by
  induction o with
  | nil => simp [jset]
  | cons p r ih =>
    obtain ⟨k₀, v₀⟩ := p
    simp only [List.map_cons, List.mem_cons, not_or] at h
    simp [jset, Ne.symm h.1, ih h.2]

theorem jget_isSome_iff_mem_keys [DecidableEq α] (o : List (α × β)) (k : α) :
    (jget o k).isSome = true ↔ k ∈ o.map Prod.fst := by
  induction o with
  | nil => simp [jget]
  | cons p r ih =>
    obtain ⟨k₀, v₀⟩ := p
    rw [jget_cons]
    by_cases h₀ : k₀ = k
    · subst h₀; simp
    · rw [if_neg h₀]
      simp only [List.map_cons, List.mem_cons]
      rw [ih]
      constructor
      · exact fun hm => Or.inr hm
      · intro hm; exact hm.resolve_left (fun he => h₀ he.symm)

theorem jget_eq_some_mem [DecidableEq α] {o : List (α × β)} {k : α} {v : β}
    (h : jget o k = some v) : (k, v) ∈ o := by
  induction o with
  | nil => simp [jget] at h
  | cons p r ih =>
    obtain ⟨k₀, v₀⟩ := p
    rw [jget_cons] at h
    by_cases h₀ : k₀ = k
    · rw [if_pos h₀] at h
      injection h with h'
      subst h₀; subst h'
      exact List.mem_cons_self _ _
    · rw [if_neg h₀] at h
      exact List.mem_cons_of_mem _ (ih h)

theorem mem_jget_of_nodup_keys [DecidableEq α] {o : List (α × β)} {k : α} {v : β}
    (hnd : (o.map Prod.fst).Nodup) (h : (k, v) ∈ o) : jget o k = some v := by
  induction o with
  | nil => simp at h
  | cons p r ih =>
    obtain ⟨k₀, v₀⟩ := p
    simp only [List.map_cons, List.nodup_cons] at hnd
    rcases List.mem_cons.mp h with h | h
    · injection h with h1 h2
      subst h1; subst h2
      rw [jget_cons, if_pos rfl]
    · have hk : k₀ ≠ k := by
        intro he
        exact hnd.1 (List.mem_map.mpr ⟨(k, v), h, he.symm⟩)
      rw [jget_cons, if_neg hk]
      exact ih hnd.2 h

/-! ## The JS `parseFloat` model -/

/-- Numeric value of a list of decimal digit characters. -/
def digitsVal (l : List Char) : ℕ :=
  l.foldl (fun a c => 10 * a + (c.toNat - 48)) 0

/-- JS whitespace (the common cases). -/
def isWSChar (c : Char) : Bool := c = ' ' ∨ c = '\t' ∨ c = '\n' ∨ c = '\r'

/-- Model of JS `String.prototype.trim`. -/
def jsTrim (s : String) : String :=
  ⟨((s.data.dropWhile isWSChar).reverse.dropWhile isWSChar).reverse⟩

/-- Model of JS `parseFloat`: skip leading whitespace, optional sign, longest
decimal-literal prefix (digits, optional `.digits`, optional exponent);
`none` when no digit is found, which JS reports as `NaN`. -/
def parseFloat? (s : String) : Option ℚ :=
  let cs := s.data.dropWhile isWSChar
  let sgn : ℚ := if cs.head? = some '-' then -1 else 1
  let cs1 := if cs.head? = some '-' ∨ cs.head? = some '+' then cs.tail else cs
  let intPart := cs1.takeWhile Char.isDigit
  let cs2 := cs1.dropWhile Char.isDigit
  let fracPart := if cs2.head? = some '.' then cs2.tail.takeWhile Char.isDigit else []
  let cs3 := if cs2.head? = some '.' then cs2.tail.dropWhile Char.isDigit else cs2
  if intPart = [] ∧ fracPart = [] then none
  else
    let mantissa : ℚ :=
      (digitsVal intPart : ℚ) + (digitsVal fracPart : ℚ) / ((10 : ℚ) ^ fracPart.length)
    let expTail := if cs3.head? = some 'e' ∨ cs3.head? = some 'E' then cs3.tail else []
    let expNeg := expTail.head? = some '-'
    let expDs :=
      (if expTail.head? = some '-' ∨ expTail.head? = some '+' then expTail.tail
       else expTail).takeWhile Char.isDigit
    let e := digitsVal expDs
    some (if expNeg then sgn * mantissa / ((10 : ℚ) ^ e) else sgn * mantissa * ((10 : ℚ) ^ e))

/-- `parseFloat(s) || 0`: an unparseable cell coerces to 0 (`NaN` is falsy),
and a parsed 0 stays 0, so this is exactly `getD 0`. -/
def coerceNum0 (s : String) : ℚ := (parseFloat? s).getD 0

/-! ## Rows and cells -/

/-- A parsed CSV row: insertion-ordered column-name/cell pairs. -/
abbrev Row : Type := List (String × String)

/-- `row[c]` used where JS stringifies the result (object keys): a missing
cell (`undefined`) becomes the string "undefined", exactly the key JS would
use, and it fails numeric parsing just as `undefined` does. -/
def cellS (r : Row) (c : String) : String := (jget r c).getD "undefined"

/-- `parseFloat(row[c]) || 0`. -/
def coerceCell (c : String) (r : Row) : ℚ := coerceNum0 (cellS r c)

/-- A transformer output record. -/
abbrev JRecord : Type := List (String × JVal)

/-- `{...row}`: the row's cells spread into a record, as strings. -/
def recordOfRow (r : Row) : JRecord :=
  r.foldl (fun acc p => jset acc p.1 (JVal.str p.2)) []

/-- Read a field of a record as the accumulation code does: a missing key
(`undefined`) is collapsed to `nan` (see module conventions). -/
def getJ (r : JRecord) (k : String) : JVal := (jget r k).getD .nan

/-! ## First-seen deduplication and sorts -/

/-- Worker for `dedupFirst`: `seen` holds the already-emitted elements. -/
def dedupFirstAux [DecidableEq α] (seen : List α) : List α → List α
  | [] => []
  | x :: xs => if x ∈ seen then dedupFirstAux seen xs else x :: dedupFirstAux (x :: seen) xs

/-- `[...new Set(l)]`: deduplicate keeping first occurrences in order. -/
def dedupFirst [DecidableEq α] (l : List α) : List α := dedupFirstAux [] l

theorem mem_dedupFirstAux [DecidableEq α] (a : α) (l : List α) :
    ∀ seen, a ∈ dedupFirstAux seen l ↔ a ∈ l ∧ a ∉ seen := by
  induction l with
  | nil => simp [dedupFirstAux]
  | cons x xs ih =>
    intro seen
    by_cases hx : x ∈ seen
    · rw [dedupFirstAux, if_pos hx, ih]
      constructor
      · exact fun h => ⟨List.mem_cons_of_mem _ h.1, h.2⟩
      · intro h
        refine ⟨(List.mem_cons.mp h.1).resolve_left ?_, h.2⟩
        intro he; subst he; exact h.2 hx
    · rw [dedupFirstAux, if_neg hx]
      by_cases hax : a = x
      · subst hax; simp [hx]
      · simp only [List.mem_cons, hax, false_or]
        rw [ih]
        simp [List.mem_cons, hax]

theorem mem_dedupFirst [DecidableEq α] (a : α) (l : List α) :
    a ∈ dedupFirst l ↔ a ∈ l := by
  rw [dedupFirst, mem_dedupFirstAux]; simp

theorem nodup_dedupFirstAux [DecidableEq α] (l : List α) :
    ∀ seen, (dedupFirstAux seen l).Nodup := by
  induction l with
  | nil => intro seen; simp [dedupFirstAux]
  | cons x xs ih =>
    intro seen
    by_cases hx : x ∈ seen
    · rw [dedupFirstAux, if_pos hx]; exact ih seen
    · rw [dedupFirstAux, if_neg hx]
      refine List.nodup_cons.mpr ⟨?_, ih (x :: seen)⟩
      rw [mem_dedupFirstAux]
      simp

theorem nodup_dedupFirst [DecidableEq α] (l : List α) : (dedupFirst l).Nodup :=
  nodup_dedupFirstAux l []

/-! ## JS array sort and `Object.values` key order -/

/-- Lexicographic string comparison by code point, the order of JS
`array.sort()` with no comparator (code-unit order; they agree off the
supplementary planes). -/
def strLexLe : List Char → List Char → Bool
  | [], _ => true
  | _ :: _, [] => false
  | a :: as, b :: bs =>
    if a.toNat < b.toNat then true
    else if b.toNat < a.toNat then false
    else strLexLe as bs

/-- `a <= b` in JS string comparison. -/
def strLe (a b : String) : Bool := strLexLe a.data b.data

/-- Insert into a lexicographically ascending list of strings. -/
def insStr (a : String) : List String → List String
  | [] => [a]
  | b :: bs => if strLe a b then a :: b :: bs else b :: insStr a bs

/-- `array.sort()` with no comparator on strings: lexicographic ascending
(UTF-16 code-unit order in JS, code-point order here; they agree on the
Basic Multilingual Plane). -/
def sortStr (l : List String) : List String := l.foldr insStr []

/-- Numeric value of a candidate array-index key. -/
def keyNat (s : String) : ℕ := digitsVal s.data

/-- An ECMAScript array-index key: a canonical decimal integer string with
value below 2^32 - 1. -/
def isArrayIndex (s : String) : Bool :=
  s ≠ "" && s.data.all (·.isDigit) && (s.data.head? ≠ some '0' || s = "0")
    && keyNat s < 4294967295

/-- Insert into a list of array-index keys ascending by numeric value. -/
def insNat (a : String) : List String → List String
  | [] => [a]
  | b :: bs => if keyNat a ≤ keyNat b then a :: b :: bs else b :: insNat a bs

/-- Sort array-index keys ascending by numeric value. -/
def sortNat (l : List String) : List String := l.foldr insNat []

/-- The order in which `Object.values` (and `Object.entries`) enumerates an
object whose creation order of keys was `l`: array-index keys first in
ascending numeric order, then the remaining keys in creation order. -/
def jsOrderKeys (l : List String) : List String :=
  sortNat (l.filter (fun s => isArrayIndex s)) ++ l.filter (fun s => !isArrayIndex s)

/-- A string-keyed JS object holding records. -/
abbrev JObj : Type := List (String × JRecord)

/-- `Object.values o`: the values of the keys in enumeration order. -/
def jsValues (o : JObj) : List JRecord :=
  (jsOrderKeys (o.map Prod.fst)).filterMap (fun k => jget o k)

/-! ## The Series Transformer (src/app/page.tsx, renderChart helpers) -/

/-- `prepareScatterData`: coerce the x and y fields of every row with
`parseFloat(...) || 0`, then filter on `!isNaN` of both fields.  (The `|| 0`
has already replaced `NaN` by `0`, a fact the claims probe.) -/
def prepareScatterData (data : List Row) (x y : String) : List JRecord :=
  (data.map (fun r =>
      jset (jset (recordOfRow r) x (.num (coerceCell x r))) y (.num (coerceCell y r)))).filter
    (fun rec => !(getJ rec x).isNaNJS && !(getJ rec y).isNaNJS)

/-- The plain single-series strategy: pass rows through, coercing the
y column with `parseFloat(row[y]) || 0`. -/
def preparePlainData (data : List Row) (y : String) : List JRecord :=
  data.map (fun r => jset (recordOfRow r) y (.num (coerceCell y r)))

/-- The seeded record for one x-value: `{ [x]: xVal }` followed by a 0 for
every distinct group value. -/
def seedRecord (x : String) (gs : List String) (xv : String) : JRecord :=
  gs.foldl (fun r g => jset r g (JVal.num 0)) (jset [] x (JVal.str xv))

/-- The pre-seeded grouped object, one record per distinct x-value. -/
def groupedInit (x : String) (ux gs : List String) : JObj :=
  ux.foldl (fun gd xv => jset gd xv (seedRecord x gs xv)) []

/-- One accumulation step of `prepareGroupedData` for one row.  A row whose
x-value is missing from the object is skipped (`if (groupedData[xValue])`). -/
def groupedStep (x y groupBy transform : String) (gd : JObj) (row : Row) : JObj :=
  let xValue := cellS row x
  let groupKey := cellS row groupBy
  let yValue : ℚ := coerceCell y row
  match jget gd xValue with
  | none => gd
  | some item =>
    let item' :=
      if transform = "sum" then
        jset item groupKey ((getJ item groupKey).add (.num yValue))
      else if transform = "average" then
        let item1 :=
          if !(getJ item (groupKey ++ "_count")).truthy then
            jset (jset item (groupKey ++ "_count") (.num 0)) groupKey (.num 0)
          else item
        let item2 := jset item1 groupKey ((getJ item1 groupKey).add (.num yValue))
        jset item2 (groupKey ++ "_count") ((getJ item2 (groupKey ++ "_count")).add (.num 1))
      else if transform = "count" then
        jset item groupKey ((getJ item groupKey).add (.num 1))
      else
        jset item groupKey ((getJ item groupKey).add (.num yValue))
    jset gd xValue item'

/-- The `average` post-pass on one record: for every group value, divide the
cell by `item[group + "_count"] || 1` and delete the count key. -/
def avgFinalize (gs : List String) (item : JRecord) : JRecord :=
  gs.foldl (fun it g =>
    let count := (getJ it (g ++ "_count")).orOne
    jdel (jset it g ((getJ it g).div count)) (g ++ "_count")) item

/-- `prepareGroupedData`: enumerate distinct x-values (sorted) and distinct
group values (first seen), pre-seed every cell to 0, accumulate per
`transform`, post-divide for `average`, and return `Object.values`. -/
def prepareGroupedData (data : List Row) (x y groupBy transform : String) : List JRecord :=
  let uniqueX := sortStr (dedupFirst (data.map (fun r => cellS r x)))
  let uniqueGroups := dedupFirst (data.map (fun r => cellS r groupBy))
  let gd0 := groupedInit x uniqueX uniqueGroups
  let gd1 := data.foldl (groupedStep x y groupBy transform) gd0
  let gd2 := if transform = "average" then gd1.map (fun p => (p.1, avgFinalize uniqueGroups p.2))
             else gd1
  jsValues gd2

/-- One aggregation step of `preparePieData`: per category a running
`{value, count}` pair. -/
def pieStep (x y transform : String) (agg : List (String × ℚ × ℕ)) (r : Row) :
    List (String × ℚ × ℕ) :=
  let category := cellS r x
  let value := coerceCell y r
  let agg1 := if (jget agg category).isSome then agg else jset agg category (0, 0)
  let vc := (jget agg1 category).getD (0, 0)
  let vc' :=
    if transform = "sum" then (vc.1 + value, vc.2)
    else if transform = "average" then (vc.1 + value, vc.2 + 1)
    else if transform = "count" then (vc.1 + 1, vc.2)
    else (vc.1 + value, vc.2)
  jset agg1 category vc'

/-- Insert into a list of pie entries sorted descending by value (the JS
comparator `(a, b) => b.value - a.value`). -/
def insPie (p : String × ℚ) : List (String × ℚ) → List (String × ℚ)
  | [] => [p]
  | q :: qs => if q.2 < p.2 then p :: q :: qs else q :: insPie p qs

/-- Stable descending sort by value. -/
def sortPieDesc (l : List (String × ℚ)) : List (String × ℚ) :=
  l.foldl (fun acc p => insPie p acc) []

/-- `preparePieData`: aggregate y per x-category (sum / average / count /
default-to-sum), convert to `{name, value}` entries (dividing by the running
count for `average`; the count is at least 1 for every existing category),
and sort descending by value. -/
def preparePieData (data : List Row) (x y transform : String) : List (String × ℚ) :=
  let agg := data.foldl (pieStep x y transform) []
  let entries := agg.map (fun p =>
    (p.1, if transform = "average" then p.2.1 / (p.2.2 : ℚ) else p.2.1))
  sortPieDesc entries

/-- The transformer's output: records, or name/value pairs for pie. -/
inductive ChartData where
  | records (l : List JRecord)
  | pie (l : List (String × ℚ))
deriving DecidableEq

/-- Strategy dispatch of `renderChart`: pie first (ignoring `groupBy`), then
grouped when `groupBy` is non-null, then scatter, then plain. -/
def prepareChartData (chartType x y : String) (groupBy : Option String)
    (transform : String) (data : List Row) : ChartData :=
  if chartType = "pie" then .pie (preparePieData data x y transform)
  else
    match groupBy with
    | some g => .records (prepareGroupedData data x y g transform)
    | none =>
      if chartType = "scatter" then .records (prepareScatterData data x y)
      else .records (preparePlainData data y)

/-! ## Claim-side measurement functions (the specification's formulas) -/

/-- The rows matching one (x-value, group-value) cell. -/
def matchRows (data : List Row) (x g xv gv : String) : List Row :=
  data.filter (fun r => cellS r x = xv ∧ cellS r g = gv)

/-- Number of rows matching a cell. -/
def matchCnt (data : List Row) (x g xv gv : String) : ℕ := (matchRows data x g xv gv).length

/-- Sum of the coerced y-values of the rows matching a cell. -/
def matchSum (data : List Row) (x y g xv gv : String) : ℚ :=
  ((matchRows data x g xv gv).map (coerceCell y)).sum

/-- The rows of one pie category. -/
def catRows (data : List Row) (x cat : String) : List Row :=
  data.filter (fun r => cellS r x = cat)

/-- The value the specification assigns to a pie category: sum of coerced
y-values, their average, the row count, or sum again for any other mode. -/
def pieValue (transform x y : String) (data : List Row) (cat : String) : ℚ :=
  let m := catRows data x cat
  if transform = "average" then ((m.map (coerceCell y)).sum) / (m.length : ℚ)
  else if transform = "count" then (m.length : ℚ)
  else (m.map (coerceCell y)).sum

/-! ## The Chart Specification Validator (src/app/api/generate/route.ts) -/

/-- A JSON field value as far as the validator inspects it: `null` or a
string.  (A number/object/array would fail every enumeration and column
membership test exactly as an unknown string does, so it is not modelled
separately.) -/
inductive JField where
  | fnull
  | fstr (s : String)
deriving DecidableEq

/-- A candidate chart configuration as parsed from the oracle's JSON:
`none` means the key is absent, `some .fnull` that it is present and null. -/
structure RawConfig where
  chartType : Option JField := none
  x : Option JField := none
  y : Option JField := none
  groupBy : Option JField := none
  dataTransform : Option JField := none
  summary : Option JField := none
deriving DecidableEq

/-- The three request-level failures of the validator. -/
inductive VErr where
  | missingField (f : String)
  | invalidChartType
  | unknownColumn
deriving DecidableEq

/-- A validated chart specification as returned by the route. -/
structure ChartSpec where
  chartType : String
  x : String
  y : String
  groupBy : Option String
  dataTransform : String
  summary : JField
deriving DecidableEq

def validChartTypes : List String := ["bar", "line", "pie", "scatter", "area"]

def validTransforms : List String := ["none", "sum", "average", "count"]

def requiredFields : List String := ["chartType", "x", "y", "summary"]

/-- Field access by name, for the required-fields loop. -/
def RawConfig.fieldOf (c : RawConfig) (name : String) : Option JField :=
  if name = "chartType" then c.chartType
  else if name = "x" then c.x
  else if name = "y" then c.y
  else if name = "groupBy" then c.groupBy
  else if name = "dataTransform" then c.dataTransform
  else if name = "summary" then c.summary
  else none

/-- The first required field not present in the configuration
(`!(field in chartConfig)`), if any. -/
def firstMissing (c : RawConfig) : Option String :=
  requiredFields.find? (fun f => (c.fieldOf f).isNone)

/-- JS truthiness of a field value: a present, non-null, nonempty string. -/
def truthyF : Option JField → Bool
  | some (.fstr s) => s ≠ ""
  | _ => false

/-- `list.includes(v)` for a field value: only a present string member. -/
def inListF (l : List String) : Option JField → Bool
  | some (.fstr s) => l.contains s
  | _ => false

/-- The string carried by a field value, if any. -/
def strValF : Option JField → Option String
  | some (.fstr s) => some s
  | _ => none

/-- The POST handler's validation/repair of the oracle's configuration:
missing required field, invalid chart type, and unknown x/y columns are hard
failures (in that order); an invalid non-null `groupBy` is silently reset to
null; an absent/invalid `dataTransform` silently becomes "none"; the
response's `groupBy` is `chartConfig.groupBy || null`. -/
def validateConfig (columns : List String) (c : RawConfig) : Except VErr ChartSpec :=
  match firstMissing c with
  | some f => .error (.missingField f)
  | none =>
    if !(inListF validChartTypes c.chartType) then .error .invalidChartType
    else if !(inListF columns c.x && inListF columns c.y) then .error .unknownColumn
    else
      let gb := if truthyF c.groupBy && !(inListF columns c.groupBy) then some .fnull
                else c.groupBy
      let dt := if !truthyF c.dataTransform || !(inListF validTransforms c.dataTransform)
                then "none" else (strValF c.dataTransform).getD "none"
      .ok { chartType := (strValF c.chartType).getD ""
            x := (strValF c.x).getD ""
            y := (strValF c.y).getD ""
            groupBy := if truthyF gb then strValF gb else none
            dataTransform := dt
            summary := c.summary.getD .fnull }

/-! ## The Column Profiler (src/app/page.tsx, handleFileUpload) -/

/-- The three inferred value/column types. -/
inductive VType where
  | numeric
  | date
  | text
deriving DecidableEq, Repr

/-- A number-or-NaN, for the profiler's min/max statistics. -/
inductive JNum where
  | num (q : ℚ)
  | nan
deriving DecidableEq, Repr

/-- `parseFloat` producing a JS number (`NaN` on failure). -/
def parseFloatJN (s : String) : JNum :=
  match parseFloat? s with
  | some q => .num q
  | none => .nan

/-- `Math.min` on two JS numbers (NaN-propagating). -/
def JNum.jmin : JNum → JNum → JNum
  | .num a, .num b => .num (min a b)
  | _, _ => .nan

/-- `Math.max` on two JS numbers (NaN-propagating). -/
def JNum.jmax : JNum → JNum → JNum
  | .num a, .num b => .num (max a b)
  | _, _ => .nan

/-- The profiled metadata of one column. -/
structure ColumnInfo where
  name : String
  type : VType
  min? : Option JNum
  max? : Option JNum
  uniqueCount : ℕ
deriving DecidableEq, Repr

/-- `getValueType`: numeric first (host test abstracted as `isNum`, which
stands for `!isNaN(parseFloat(v)) && isFinite(Number(v))`), then date (host
test abstracted as `isDate`, standing for `!isNaN(new Date(v).getTime())`),
both additionally requiring a non-blank string; otherwise text. -/
def getValueType (isNum isDate : String → Bool) (v : String) : VType :=
  if isNum v && jsTrim v ≠ "" then .numeric
  else if isDate v && jsTrim v ≠ "" then .date
  else .text

/-- The non-null/non-empty values of one column
(`values.filter(val => val !== null && val !== undefined && val !== '')`). -/
def nonEmptyValues (data : List Row) (name : String) : List String :=
  (data.filterMap (fun r => jget r name)).filter (fun v => v ≠ "")

/-- `acc[t] = (acc[t] || 0) + 1` over an insertion-ordered tally object. -/
def bumpCount (acc : List (VType × ℕ)) (t : VType) : List (VType × ℕ) :=
  match jget acc t with
  | some n => jset acc t (n + 1)
  | none => acc ++ [(t, 1)]

/-- Insert into a tally list sorted descending by count, stably (the JS
comparator `([,a],[,b]) => b - a` under ES2019's stable sort). -/
def insCnt (p : VType × ℕ) : List (VType × ℕ) → List (VType × ℕ)
  | [] => [p]
  | q :: qs => if q.2 < p.2 then p :: q :: qs else q :: insCnt p qs

/-- Stable descending sort of the tally entries. -/
def sortCntDesc (l : List (VType × ℕ)) : List (VType × ℕ) :=
  l.foldl (fun acc p => insCnt p acc) []

/-- The Profiler for one column: classify every non-empty value, take the
most common type only when it exceeds 50 percent of the non-empty values
(otherwise text), and for a numeric column recompute min/max over exactly the
values that re-classify as numeric. -/
def profileColumn (isNum isDate : String → Bool) (data : List Row) (name : String) :
    ColumnInfo :=
  let values := nonEmptyValues data name
  let uniqueCount := (dedupFirst values).length
  if values = [] then
    { name, type := .text, min? := none, max? := none, uniqueCount }
  else
    let types := values.map (getValueType isNum isDate)
    let typeCounts := types.foldl bumpCount []
    let top := (sortCntDesc typeCounts).headD (.text, 0)
    let total := types.length
    let ty := if (top.2 : ℚ) / (total : ℚ) > 0.5 then top.1 else .text
    if ty = .numeric then
      let nums := (values.filter
        (fun v => getValueType isNum isDate v = .numeric)).map parseFloatJN
      match nums with
      | [] => { name, type := ty, min? := none, max? := none, uniqueCount }
      | n :: rest =>
        { name, type := ty, min? := some (rest.foldl JNum.jmin n)
          max? := some (rest.foldl JNum.jmax n), uniqueCount }
    else { name, type := ty, min? := none, max? := none, uniqueCount }

/-- Concrete stand-in for the host numeric test, used by witnesses and
counterexamples: the cell parses as a (finite, decimal) number.  The real
test also rules out values like "0x10" via `isFinite(Number(v))`, which none
of the concrete inputs below exercise. -/
def modelIsNum (s : String) : Bool := (parseFloat? s).isSome

/-- Concrete stand-in for the host date test: none of the concrete inputs
used below parse as dates. -/
def modelIsDate (_ : String) : Bool := false

/-! ## C1: the Scatter strategy -/

theorem getJ_jset_self (r : JRecord) (k : String) (v : JVal) : getJ (jset r k v) k = v := by
  rw [getJ, jget_jset_self, Option.getD_some]

theorem scatter_filter_pred_true (r : Row) (x y : String) :
    (!(getJ (jset (jset (recordOfRow r) x (.num (coerceCell x r))) y
        (.num (coerceCell y r))) x).isNaNJS
      && !(getJ (jset (jset (recordOfRow r) x (.num (coerceCell x r))) y
        (.num (coerceCell y r))) y).isNaNJS) = true := by
  have hy : getJ (jset (jset (recordOfRow r) x (.num (coerceCell x r))) y
      (.num (coerceCell y r))) y = .num (coerceCell y r) := getJ_jset_self ..
  by_cases hxy : x = y
  · subst hxy
    rw [hy]
    simp [JVal.isNaNJS]
  · have hx : getJ (jset (jset (recordOfRow r) x (.num (coerceCell x r))) y
        (.num (coerceCell y r))) x = .num (coerceCell x r) := by
      rw [getJ, jget_jset_ne _ _ _ _ (fun h => hxy h.symm), jget_jset_self, Option.getD_some]
    rw [hx, hy]
    simp [JVal.isNaNJS]

/-- C1 (code_bug evidence): the `parseFloat(...) || 0` coercion precedes the
`!isNaN` filter, so the filter never sees a `NaN` and never drops a row.  At
the failing input `[{x: "abc", y: "5"}]` the row survives zero-filled, where
the claim requires it to be excluded; in general the scatter output has
exactly as many rows as the input, for every dataset. -/
theorem scatter_keeps_unparseable_rows :
    prepareScatterData [[("x", "abc"), ("y", "5")]] "x" "y"
      = [[("x", JVal.num 0), ("y", JVal.num 5)]]
    ∧ ∀ (data : List Row) (x y : String), (prepareScatterData data x y).length = data.length := by
  constructor
  · decide
  · intro data x y
    rw [prepareScatterData, List.filter_eq_self.mpr, List.length_map]
    intro rec hrec
    obtain ⟨r, _, rfl⟩ := List.mem_map.mp hrec
    exact scatter_filter_pred_true r x y

/-! ## C8, C9: the Validator -/

theorem RawConfig.fieldOf_chartType (c : RawConfig) : c.fieldOf "chartType" = c.chartType := rfl

theorem firstMissing_none_iff (c : RawConfig) :
    firstMissing c = none ↔
      c.chartType.isSome = true ∧ c.x.isSome = true ∧ c.y.isSome = true
        ∧ c.summary.isSome = true := by
  obtain ⟨ct, x, y, gb, dt, sm⟩ := c
  cases ct <;> cases x <;> cases y <;> cases sm <;>
    simp [firstMissing, requiredFields, RawConfig.fieldOf, List.find?]

/-- C8: the validator hard-fails exactly when a required field among
chartType, x, y, summary is absent, or chartType is outside the five-value
enumeration, or x or y does not name a column — checked in that order, each
with its own distinct error. -/
theorem validator_hard_fail_iff (columns : List String) (c : RawConfig) :
    ((validateConfig columns c).isOk = true ↔
      (c.chartType.isSome = true ∧ c.x.isSome = true ∧ c.y.isSome = true
        ∧ c.summary.isSome = true)
      ∧ inListF validChartTypes c.chartType = true
      ∧ inListF columns c.x = true ∧ inListF columns c.y = true)
    ∧ (∀ f, validateConfig columns c = .error (.missingField f) ↔ firstMissing c = some f)
    ∧ (validateConfig columns c = .error .invalidChartType ↔
        firstMissing c = none ∧ inListF validChartTypes c.chartType = false)
    ∧ (validateConfig columns c = .error .unknownColumn ↔
        firstMissing c = none ∧ inListF validChartTypes c.chartType = true
          ∧ (inListF columns c.x = false ∨ inListF columns c.y = false)) := by
  rcases hfm : firstMissing c with _ | f
  · rw [firstMissing_none_iff] at hfm
    simp only [validateConfig, (firstMissing_none_iff c).mpr hfm]
    by_cases h1 : inListF validChartTypes c.chartType
    · by_cases h2 : inListF columns c.x
      · by_cases h3 : inListF columns c.y
        · simp [h1, h2, h3, hfm, firstMissing_none_iff, Except.isOk, Except.toBool]
        · simp [h1, h2, h3, hfm, firstMissing_none_iff, Except.isOk, Except.toBool]
      · by_cases h3 : inListF columns c.y <;>
          simp [h1, h2, h3, hfm, firstMissing_none_iff, Except.isOk, Except.toBool]
    · simp [h1, hfm, firstMissing_none_iff, Except.isOk, Except.toBool]
  · have hne : ¬ (c.chartType.isSome = true ∧ c.x.isSome = true ∧ c.y.isSome = true
        ∧ c.summary.isSome = true) := by
      intro hall
      rw [← firstMissing_none_iff] at hall
      rw [hall] at hfm
      exact Option.noConfusion hfm
    simp only [validateConfig, hfm]
    simp [hne, hfm, Except.isOk, Except.toBool]

theorem groupBy_repair_char (columns : List String) (gb0 : Option JField) :
    (if truthyF (if truthyF gb0 && !(inListF columns gb0) then some JField.fnull else gb0)
      then strValF (if truthyF gb0 && !(inListF columns gb0) then some JField.fnull else gb0)
      else none)
    = match gb0 with
      | some (.fstr s) => if s ≠ "" && columns.contains s then some s else none
      | _ => none := by
  rcases gb0 with _ | jf
  · simp [truthyF]
  · rcases jf with _ | s
    · simp [truthyF]
    · by_cases hs : s = ""
      · subst hs
        simp [truthyF]
      · by_cases hc : s ∈ columns
        · simp [truthyF, inListF, strValF, hs, hc, List.elem_iff.mpr hc]
        · have hc' : columns.contains s = false := by
            rw [Bool.eq_false_iff]
            intro hb
            exact hc (List.elem_iff.mp hb)
          simp [truthyF, inListF, strValF, hs, hc, hc']

theorem transform_repair_char (dt0 : Option JField) :
    (if !truthyF dt0 || !(inListF validTransforms dt0) then "none"
      else (strValF dt0).getD "none")
    = match dt0 with
      | some (.fstr s) => if s ≠ "" && validTransforms.contains s then s else "none"
      | _ => "none" := by
  rcases dt0 with _ | jf
  · simp [truthyF]
  · rcases jf with _ | s
    · simp [truthyF]
    · by_cases hs : s = ""
      · subst hs
        simp [truthyF]
      · by_cases hc : s ∈ validTransforms
        · simp [truthyF, inListF, strValF, hs, hc, List.elem_iff.mpr hc]
        · have hc' : validTransforms.contains s = false := by
            rw [Bool.eq_false_iff]
            intro hb
            exact hc (List.elem_iff.mp hb)
          simp [truthyF, inListF, strValF, hs, hc, hc']

/-- C9: on every configuration that passes the hard checks, an invalid
non-null groupBy is silently reset to null, an absent or invalid
dataTransform silently defaults to "none", and the returned specification
always has groupBy in the column set or null and dataTransform in the
four-value enumeration. -/
theorem validator_silent_repairs (columns : List String) (c : RawConfig) (spec : ChartSpec)
    (h : validateConfig columns c = .ok spec) :
    (∀ s, spec.groupBy = some s → s ∈ columns)
    ∧ spec.dataTransform ∈ validTransforms
    ∧ (∀ s, c.groupBy = some (.fstr s) → s ∉ columns → spec.groupBy = none)
    ∧ ((∀ s, c.dataTransform = some (.fstr s) → s ∉ validTransforms) →
        spec.dataTransform = "none") := by
  rcases hfm : firstMissing c with _ | f
  swap
  · simp [validateConfig, hfm] at h
  simp only [validateConfig, hfm] at h
  by_cases h1 : inListF validChartTypes c.chartType
  swap
  · simp [h1] at h
  by_cases h2 : inListF columns c.x
  swap
  · simp [h1, h2] at h
  by_cases h3 : inListF columns c.y
  swap
  · simp [h1, h2, h3] at h
  simp only [h1, h2, h3, Bool.not_true, Bool.and_self, Bool.false_eq_true, if_false,
    Except.ok.injEq] at h
  have hgbout : spec.groupBy
      = match c.groupBy with
        | some (.fstr s) => if s ≠ "" && columns.contains s then some s else none
        | _ => none := by
    rw [← h, ← groupBy_repair_char columns c.groupBy]
  have hdtout : spec.dataTransform
      = match c.dataTransform with
        | some (.fstr s) => if s ≠ "" && validTransforms.contains s then s else "none"
        | _ => "none" := by
    rw [← h, ← transform_repair_char c.dataTransform]
  refine ⟨?_, ?_, ?_, ?_⟩
  · intro s hs
    rw [hgbout] at hs
    rcases hgb : c.groupBy with _ | jf
    · rw [hgb] at hs; simp at hs
    · rcases jf with _ | s0
      · rw [hgb] at hs; simp at hs
      · rw [hgb] at hs
        simp only [] at hs
        by_cases hcond : (s0 ≠ "" && columns.contains s0) = true
        · rw [if_pos hcond] at hs
          injection hs with hs'
          subst hs'
          exact List.elem_iff.mp (Bool.and_elim_right hcond)
        · rw [if_neg hcond] at hs
          exact Option.noConfusion hs
  · rw [hdtout]
    rcases c.dataTransform with _ | jf
    · simp [validTransforms]
    · rcases jf with _ | s0
      · simp [validTransforms]
      · show (if (decide (s0 ≠ "") && validTransforms.contains s0) = true
            then s0 else "none") ∈ validTransforms
        by_cases hcond : (s0 ≠ "" && validTransforms.contains s0) = true
        · simp only [hcond, if_true]
          exact List.elem_iff.mp (Bool.and_elim_right hcond)
        · rw [if_neg hcond]
          simp [validTransforms]
  · intro s hgb hnot
    rw [hgbout, hgb]
    have : columns.contains s = false := by
      rw [Bool.eq_false_iff]
      intro hc
      exact hnot (List.elem_iff.mp hc)
    simp only [this, Bool.and_false, Bool.false_eq_true, if_false]
  · intro hnone
    rw [hdtout]
    rcases hdv : c.dataTransform with _ | jf
    · rfl
    · rcases jf with _ | s0
      · rfl
      · have : validTransforms.contains s0 = false := by
          rw [Bool.eq_false_iff]
          intro hc
          exact hnone s0 hdv (List.elem_iff.mp hc)
        simp only [this, Bool.and_false, Bool.false_eq_true, if_false]

/-- Witness for C9 at a concrete passing configuration with an invalid
groupBy and an invalid dataTransform. -/
theorem validator_silent_repairs_witness :
    (validateConfig ["month", "sales"]
        { chartType := some (.fstr "bar"), x := some (.fstr "month"),
          y := some (.fstr "sales"), groupBy := some (.fstr "zzz"),
          dataTransform := some (.fstr "bogus"), summary := some (.fstr "ok") }
      = .ok { chartType := "bar", x := "month", y := "sales", groupBy := none,
              dataTransform := "none", summary := .fstr "ok" })
    ∧ ({ chartType := "bar", x := "month", y := "sales", groupBy := none,
         dataTransform := "none", summary := .fstr "ok" } : ChartSpec).groupBy = none
    ∧ ({ chartType := "bar", x := "month", y := "sales", groupBy := none,
         dataTransform := "none", summary := .fstr "ok" } : ChartSpec).dataTransform
        ∈ validTransforms := by
  have h : validateConfig ["month", "sales"]
      { chartType := some (.fstr "bar"), x := some (.fstr "month"),
        y := some (.fstr "sales"), groupBy := some (.fstr "zzz"),
        dataTransform := some (.fstr "bogus"), summary := some (.fstr "ok") }
      = .ok { chartType := "bar", x := "month", y := "sales", groupBy := none,
              dataTransform := "none", summary := .fstr "ok" } := rfl
  refine ⟨h, ?_, (validator_silent_repairs _ _ _ h).2.1⟩
  exact (validator_silent_repairs _ _ _ h).2.2.1 "zzz" rfl (by decide)

/-! ## C5, C6, C7: the Column Profiler -/

theorem jget_append [DecidableEq α] (o1 o2 : List (α × β)) (k : α) :
    jget (o1 ++ o2) k = match jget o1 k with
      | some v => some v
      | none => jget o2 k := by
  induction o1 with
  | nil => simp [jget]
  | cons p r ih =>
    obtain ⟨k₀, v₀⟩ := p
    by_cases h₀ : k₀ = k
    · subst h₀; simp [jget_cons]
    · simp only [List.cons_append, jget_cons, if_neg h₀]
      exact ih

theorem jget_foldl_bumpCount (l : List VType) :
    ∀ acc t, jget (l.foldl bumpCount acc) t
      = match jget acc t with
        | some n => some (n + l.count t)
        | none => if l.count t = 0 then none else some (l.count t) := by
  induction l with
  | nil =>
    intro acc t
    rcases h : jget acc t with _ | n <;> simp [h]
  | cons t0 rest ih =>
    intro acc t
    rw [List.foldl_cons, ih]
    rw [bumpCount]
    by_cases ht : t0 = t
    · subst ht
      rcases hacc : jget acc t0 with _ | n
      · rw [jget_append, hacc]
        simp only [jget_cons, if_pos rfl, jget_nil]
        rw [List.count_cons_self]
        rcases hc : rest.count t0 with _ | m
        · simp
        · simp [Nat.add_comm]
      · rw [jget_jset_self]
        rw [List.count_cons_self]
        simp [Nat.add_assoc, Nat.add_comm 1]
    · rcases hacc : jget acc t0 with _ | n
      · rw [jget_append]
        simp only [jget_cons, if_neg ht, jget_nil]
        rw [List.count_cons_of_ne (fun he => ht he.symm)]
        cases jget acc t <;> rfl
      · rw [jget_jset_ne _ _ _ _ ht]
        rw [List.count_cons_of_ne (fun he => ht he.symm)]

theorem bumpCount_keys_nodup (l : List VType) :
    ∀ acc : List (VType × ℕ), (acc.map Prod.fst).Nodup →
      ((l.foldl bumpCount acc).map Prod.fst).Nodup := by
  induction l with
  | nil => exact fun acc h => h
  | cons t0 rest ih =>
    intro acc hacc
    rw [List.foldl_cons]
    refine ih _ ?_
    rw [bumpCount]
    rcases h : jget acc t0 with _ | n
    · rw [List.map_append]
      simp only [List.map_cons, List.map_nil]
      rw [List.nodup_append]
      refine ⟨hacc, List.nodup_singleton _, ?_⟩
      intro a ha hb
      simp only [List.mem_singleton] at hb
      subst hb
      rw [← jget_isSome_iff_mem_keys] at ha
      rw [h] at ha
      simp at ha
    · rw [jset_keys_mem]
      · exact hacc
      · rw [← jget_isSome_iff_mem_keys, h]
        rfl

theorem typeCounts_entry (types : List VType) (t : VType) (n : ℕ)
    (h : (t, n) ∈ types.foldl bumpCount []) : n = types.count t ∧ types.count t ≠ 0 := by
  have hnd := bumpCount_keys_nodup types [] (by simp)
  have hg := mem_jget_of_nodup_keys hnd h
  rw [jget_foldl_bumpCount] at hg
  simp only [jget_nil] at hg
  by_cases hc : types.count t = 0
  · rw [if_pos hc] at hg
    exact Option.noConfusion hg
  · rw [if_neg hc] at hg
    injection hg with hg'
    exact ⟨hg'.symm, hc⟩

theorem mem_insCnt (p a : VType × ℕ) (l : List (VType × ℕ)) :
    a ∈ insCnt p l ↔ a = p ∨ a ∈ l := by
  induction l with
  | nil => simp [insCnt]
  | cons q qs ih =>
    rw [insCnt]
    by_cases h : q.2 < p.2
    · simp [h]
    · rw [if_neg h]
      simp only [List.mem_cons, ih]
      tauto

theorem insCnt_perm (p : VType × ℕ) (l : List (VType × ℕ)) :
    List.Perm (insCnt p l) (p :: l) := by
  induction l with
  | nil => simp [insCnt]
  | cons q qs ih =>
    rw [insCnt]
    by_cases h : q.2 < p.2
    · rw [if_pos h]
    · rw [if_neg h]
      exact (ih.cons q).trans (List.Perm.swap _ _ _)

theorem insCnt_sorted (p : VType × ℕ) (l : List (VType × ℕ))
    (h : l.Pairwise (fun a b => b.2 ≤ a.2)) :
    (insCnt p l).Pairwise (fun a b => b.2 ≤ a.2) := by
  induction l with
  | nil => simp [insCnt]
  | cons q qs ih =>
    rw [List.pairwise_cons] at h
    rw [insCnt]
    by_cases hlt : q.2 < p.2
    · rw [if_pos hlt]
      rw [List.pairwise_cons]
      refine ⟨?_, List.pairwise_cons.mpr h⟩
      intro b hb
      rcases List.mem_cons.mp hb with hb | hb
      · subst hb; exact le_of_lt hlt
      · exact le_trans (h.1 b hb) (le_of_lt hlt)
    · rw [if_neg hlt]
      rw [List.pairwise_cons]
      refine ⟨?_, ih h.2⟩
      intro b hb
      rcases (mem_insCnt p b qs).mp hb with hb | hb
      · subst hb; exact le_of_not_lt hlt
      · exact h.1 b hb

theorem foldl_insCnt_perm (l : List (VType × ℕ)) :
    ∀ acc, List.Perm (l.foldl (fun acc p => insCnt p acc) acc) (l ++ acc) := by
  induction l with
  | nil => intro acc; simp
  | cons p rest ih =>
    intro acc
    rw [List.foldl_cons]
    refine (ih (insCnt p acc)).trans ?_
    refine (List.Perm.append_left rest (insCnt_perm p acc)).trans ?_
    exact List.perm_middle

theorem sortCntDesc_perm (l : List (VType × ℕ)) : List.Perm (sortCntDesc l) l := by
  rw [sortCntDesc]
  simpa using foldl_insCnt_perm l []

theorem sortCntDesc_sorted (l : List (VType × ℕ)) :
    (sortCntDesc l).Pairwise (fun a b => b.2 ≤ a.2) := by
  rw [sortCntDesc]
  suffices h : ∀ acc, acc.Pairwise (fun a b => b.2 ≤ a.2) →
      (l.foldl (fun acc p => insCnt p acc) acc).Pairwise (fun a b => b.2 ≤ a.2) by
    exact h [] (by simp)
  induction l with
  | nil => exact fun acc h => h
  | cons p rest ih =>
    intro acc hacc
    rw [List.foldl_cons]
    exact ih _ (insCnt_sorted p acc hacc)

/-- The classified types of a column's non-empty values. -/
def columnTypes (isNum isDate : String → Bool) (data : List Row) (name : String) :
    List VType :=
  (nonEmptyValues data name).map (getValueType isNum isDate)

theorem count_pair_le_length [DecidableEq α] (l : List α) (a b : α) (h : a ≠ b) :
    l.count a + l.count b ≤ l.length := by
  induction l with
  | nil => simp
  | cons x xs ih =>
    rw [List.count_cons, List.count_cons, List.length_cons]
    by_cases ha : x = a
    · have hb : ¬ x = b := fun he => h (ha.symm.trans he)
      rw [if_pos (by simpa using ha), if_neg (by simpa using hb)]
      omega
    · rw [if_neg (by simpa using ha)]
      by_cases hb : x = b
      · rw [if_pos (by simpa using hb)]
        omega
      · rw [if_neg (by simpa using hb)]
        omega

theorem profiler_top_spec (types : List VType) (h : types ≠ []) :
    ∃ tt, (sortCntDesc (types.foldl bumpCount [])).headD (.text, 0) = (tt, types.count tt)
      ∧ types.count tt ≠ 0 ∧ ∀ t', types.count t' ≤ types.count tt := by
  obtain ⟨t0, rest, rfl⟩ := List.exists_cons_of_ne_nil h
  have hc0 : (t0 :: rest).count t0 ≠ 0 := by
    have := List.count_pos_iff.mpr (List.mem_cons_self t0 rest)
    omega
  have htc0 : jget ((t0 :: rest).foldl bumpCount []) t0 = some ((t0 :: rest).count t0) := by
    rw [jget_foldl_bumpCount, jget_nil, if_neg hc0]
  have htcne : (t0 :: rest).foldl bumpCount [] ≠ [] := by
    intro he
    rw [he] at htc0
    exact Option.noConfusion htc0
  have hperm := sortCntDesc_perm ((t0 :: rest).foldl bumpCount [])
  have hsne : sortCntDesc ((t0 :: rest).foldl bumpCount []) ≠ [] := by
    intro he
    rw [he] at hperm
    exact htcne hperm.symm.eq_nil
  obtain ⟨hd, tl, hsort⟩ := List.exists_cons_of_ne_nil hsne
  have hhd_mem : hd ∈ (t0 :: rest).foldl bumpCount [] := by
    refine hperm.mem_iff.mp ?_
    rw [hsort]
    exact List.mem_cons_self _ _
  obtain ⟨tt, n⟩ := hd
  obtain ⟨hn, hcnt⟩ := typeCounts_entry (t0 :: rest) tt n hhd_mem
  refine ⟨tt, ?_, hcnt, ?_⟩
  · rw [hsort, List.headD_cons, hn]
  · intro t'
    by_cases hz : (t0 :: rest).count t' = 0
    · omega
    · have htc' : jget ((t0 :: rest).foldl bumpCount []) t'
          = some ((t0 :: rest).count t') := by
        rw [jget_foldl_bumpCount, jget_nil, if_neg hz]
      have hmem' : (t', (t0 :: rest).count t')
          ∈ sortCntDesc ((t0 :: rest).foldl bumpCount []) :=
        hperm.symm.mem_iff.mp (jget_eq_some_mem htc')
      rw [hsort] at hmem'
      rcases List.mem_cons.mp hmem' with hmem' | hmem'
      · injection hmem' with h1 h2
        rw [h1]
      · have hpw := sortCntDesc_sorted ((t0 :: rest).foldl bumpCount [])
        rw [hsort, List.pairwise_cons] at hpw
        have := hpw.1 _ hmem'
        simpa [hn] using this

theorem half_lt_div_iff (c t : ℕ) (ht : 0 < t) :
    ((c : ℚ) / (t : ℚ) > 0.5) ↔ 2 * c > t := by
  have htq : (0 : ℚ) < (t : ℚ) := by exact_mod_cast ht
  rw [show (0.5 : ℚ) = 1 / 2 by norm_num]
  rw [gt_iff_lt, div_lt_div_iff₀ (by norm_num) htq]
  constructor
  · intro hlt
    have h2 : (t : ℚ) < (2 * c : ℕ) := by push_cast; linarith
    exact_mod_cast h2
  · intro hlt
    have h2 : (t : ℚ) < (2 * c : ℕ) := by exact_mod_cast hlt
    push_cast at h2
    linarith

theorem profileColumn_type_eq (isNum isDate : String → Bool) (data : List Row) (name : String)
    (hv : nonEmptyValues data name ≠ []) :
    (profileColumn isNum isDate data name).type
      = (if ((((sortCntDesc ((columnTypes isNum isDate data name).foldl bumpCount [])).headD
            (.text, 0)).2 : ℚ) / ((columnTypes isNum isDate data name).length : ℚ) > 0.5)
         then ((sortCntDesc ((columnTypes isNum isDate data name).foldl bumpCount [])).headD
            (.text, 0)).1
         else .text) := by
  rw [profileColumn, if_neg hv, columnTypes]
  dsimp only
  split
  all_goals split
  all_goals try rfl
  all_goals split <;> rfl

theorem profiler_assigns_majority (isNum isDate : String → Bool) (data : List Row)
    (name : String) (t : VType)
    (h : 2 * (columnTypes isNum isDate data name).count t
      > (columnTypes isNum isDate data name).length) :
    (profileColumn isNum isDate data name).type = t := by
  have hct : (columnTypes isNum isDate data name).count t ≠ 0 := by omega
  have htne : columnTypes isNum isDate data name ≠ [] := by
    intro he
    rw [he] at hct
    simp at hct
  have hv : nonEmptyValues data name ≠ [] := by
    intro he
    rw [columnTypes, he] at htne
    simp at htne
  obtain ⟨tt, htop, hcnt, hmax⟩ := profiler_top_spec (columnTypes isNum isDate data name) htne
  have htotpos : 0 < (columnTypes isNum isDate data name).length := by
    have := (columnTypes isNum isDate data name).count_le_length t
    omega
  have hmajtt : 2 * (columnTypes isNum isDate data name).count tt
      > (columnTypes isNum isDate data name).length := by
    have := hmax t
    omega
  have httt : tt = t := by
    by_contra hne
    have hpair := count_pair_le_length (columnTypes isNum isDate data name) tt t hne
    have := hmax t
    omega
  rw [profileColumn_type_eq isNum isDate data name hv, htop]
  have hcond : ((((columnTypes isNum isDate data name).count tt : ℕ) : ℚ)
      / ((columnTypes isNum isDate data name).length : ℚ) > 0.5) :=
    (half_lt_div_iff _ _ htotpos).mpr hmajtt
  rw [if_pos hcond]
  exact httt

theorem profiler_type_requires_majority (isNum isDate : String → Bool) (data : List Row)
    (name : String) (t : VType) (htne : t ≠ .text)
    (h : (profileColumn isNum isDate data name).type = t) :
    2 * (columnTypes isNum isDate data name).count t
      > (columnTypes isNum isDate data name).length := by
  by_cases hv : nonEmptyValues data name = []
  · exfalso
    apply htne
    rw [← h, profileColumn, if_pos hv]
  · obtain ⟨tt, htop, hcnt, hmax⟩ :=
      profiler_top_spec (columnTypes isNum isDate data name)
        (by intro he; exact hv (by simpa [columnTypes] using he))
    rw [profileColumn_type_eq isNum isDate data name hv, htop] at h
    by_cases hcond : ((((columnTypes isNum isDate data name).count tt : ℕ) : ℚ)
        / ((columnTypes isNum isDate data name).length : ℚ) > 0.5)
    · rw [if_pos hcond] at h
      simp only at h
      subst h
      have htotpos : 0 < (columnTypes isNum isDate data name).length := by
        have := (columnTypes isNum isDate data name).count_le_length tt
        omega
      exact (half_lt_div_iff _ _ htotpos).mp hcond
    · rw [if_neg hcond] at h
      exact absurd h.symm htne

/-- C5: the Profiler classifies every non-empty value independently, with the
numeric test taking priority over the date test, and assigns the column the
majority type only when that type strictly exceeds 50 percent of the
non-empty values; otherwise (tie or plurality at or below half) the column is
Text regardless of which type is most common. -/
theorem profiler_strict_majority (isNum isDate : String → Bool) (data : List Row)
    (name : String) :
    ((profileColumn isNum isDate data name).type = .numeric ↔
      2 * (columnTypes isNum isDate data name).count .numeric
        > (columnTypes isNum isDate data name).length)
    ∧ ((profileColumn isNum isDate data name).type = .date ↔
      2 * (columnTypes isNum isDate data name).count .date
        > (columnTypes isNum isDate data name).length)
    ∧ ((¬ 2 * (columnTypes isNum isDate data name).count .numeric
          > (columnTypes isNum isDate data name).length
        ∧ ¬ 2 * (columnTypes isNum isDate data name).count .date
          > (columnTypes isNum isDate data name).length) →
      (profileColumn isNum isDate data name).type = .text)
    ∧ (∀ v, isNum v = true → jsTrim v ≠ "" → getValueType isNum isDate v = .numeric) := by
  refine ⟨⟨profiler_type_requires_majority isNum isDate data name .numeric (by simp),
      profiler_assigns_majority isNum isDate data name .numeric⟩,
    ⟨profiler_type_requires_majority isNum isDate data name .date (by simp),
      profiler_assigns_majority isNum isDate data name .date⟩, ?_, ?_⟩
  · intro ⟨hn, hd⟩
    rcases ht : (profileColumn isNum isDate data name).type with _ | _ | _
    · exact absurd (profiler_type_requires_majority isNum isDate data name _ (by simp) ht) hn
    · exact absurd (profiler_type_requires_majority isNum isDate data name _ (by simp) ht) hd
    · rfl
  · intro v h1 h2
    rw [getValueType, if_pos]
    simp [h1, h2]

/-- The subset of a column's non-empty values that independently re-classify
as numeric. -/
def numericSubset (isNum isDate : String → Bool) (data : List Row) (name : String) :
    List String :=
  (nonEmptyValues data name).filter (fun v => getValueType isNum isDate v = .numeric)

theorem profileColumn_stats (isNum isDate : String → Bool) (data : List Row) (name : String) :
    ((profileColumn isNum isDate data name).min?,
     (profileColumn isNum isDate data name).max?)
    = (if (profileColumn isNum isDate data name).type = .numeric then
        match (numericSubset isNum isDate data name).map parseFloatJN with
        | [] => (none, none)
        | n :: rest => (some (rest.foldl JNum.jmin n), some (rest.foldl JNum.jmax n))
      else (none, none)) := by
  rw [numericSubset]
  by_cases hv : nonEmptyValues data name = []
  · have ht : (profileColumn isNum isDate data name).type = .text := by
      rw [profileColumn, if_pos hv]
    rw [ht]
    rw [profileColumn, if_pos hv]
    simp
  · rw [profileColumn_type_eq isNum isDate data name hv, columnTypes]
    rw [profileColumn, if_neg hv]
    dsimp only
    split
    · split
      · rcases List.map parseFloatJN (List.filter
            (fun v => decide (getValueType isNum isDate v = VType.numeric))
            (nonEmptyValues data name)) with _ | ⟨n, rest⟩ <;> rfl
      · rfl
    · rfl

theorem foldl_jmin_jmax_le (rest : List JNum) :
    ∀ a b : ℚ, a ≤ b → (∀ e ∈ rest, ∃ q, e = JNum.num q) →
      ∃ qa qb, rest.foldl JNum.jmin (.num a) = .num qa
        ∧ rest.foldl JNum.jmax (.num b) = .num qb ∧ qa ≤ qb := by
  induction rest with
  | nil => exact fun a b hab _ => ⟨a, b, rfl, rfl, hab⟩
  | cons e rest' ih =>
    intro a b hab hall
    obtain ⟨c, rfl⟩ := hall e (List.mem_cons_self _ _)
    rw [List.foldl_cons, List.foldl_cons]
    have h1 : JNum.jmin (.num a) (.num c) = .num (min a c) := rfl
    have h2 : JNum.jmax (.num b) (.num c) = .num (max b c) := rfl
    rw [h1, h2]
    refine ih (min a c) (max b c) ?_ (fun x hx => hall x (List.mem_cons_of_mem _ hx))
    calc min a c ≤ a := min_le_left a c
      _ ≤ b := hab
      _ ≤ max b c := le_max_left b c

/-- C6 (amended): whenever strictly more than half of the non-empty values
classify as numeric the Profiler assigns type numeric (at exactly half the
column falls back to Text, which refutes the claim's ≥ 50 percent bound),
and whenever min and max are both defined, min ≤ max.  The hypothesis ties
the abstract numeric test to the parse used for the statistics, which holds
for the host tests by construction. -/
theorem profiler_numeric_majority_minmax (isNum isDate : String → Bool) (data : List Row)
    (name : String) (hp : ∀ v, isNum v = true → (parseFloat? v).isSome = true) :
    (2 * (columnTypes isNum isDate data name).count .numeric
        > (columnTypes isNum isDate data name).length →
      (profileColumn isNum isDate data name).type = .numeric)
    ∧ ∀ mn mx, (profileColumn isNum isDate data name).min? = some mn →
        (profileColumn isNum isDate data name).max? = some mx →
        ∃ qa qb, mn = .num qa ∧ mx = .num qb ∧ qa ≤ qb := by
  refine ⟨profiler_assigns_majority isNum isDate data name .numeric, ?_⟩
  intro mn mx hmn hmx
  have hstats := profileColumn_stats isNum isDate data name
  have hnum : ∀ e ∈ (numericSubset isNum isDate data name).map parseFloatJN,
      ∃ q, e = JNum.num q := by
    intro e he
    obtain ⟨v, hv, rfl⟩ := List.mem_map.mp he
    have hv' := hv
    rw [numericSubset, List.mem_filter] at hv'
    have hvn : getValueType isNum isDate v = .numeric := of_decide_eq_true hv'.2
    have hin : isNum v = true := by
      by_contra hne
      rw [getValueType] at hvn
      simp only [Bool.not_eq_true] at hne
      rw [hne] at hvn
      split at hvn
      · simp_all
      · split at hvn <;> exact VType.noConfusion hvn
    have := hp v hin
    rw [parseFloatJN]
    rcases hq : parseFloat? v with _ | q
    · rw [hq] at this; exact absurd this (by simp)
    · exact ⟨q, rfl⟩
  rcases hty : (profileColumn isNum isDate data name).type with _ | _ | _
  case text | date =>
    rw [hty] at hstats
    rw [if_neg (by simp)] at hstats
    injection hstats with h1 h2
    rw [hmn] at h1
    exact absurd h1 (by simp)
  case numeric =>
    rw [hty, if_pos rfl] at hstats
    rcases hl : (numericSubset isNum isDate data name).map parseFloatJN with _ | ⟨n, rest⟩
    · rw [hl] at hstats
      injection hstats with h1 h2
      rw [hmn] at h1
      exact absurd h1 (by simp)
    · rw [hl] at hstats
      injection hstats with h1 h2
      rw [hmn] at h1
      rw [hmx] at h2
      rw [hl] at hnum
      obtain ⟨a, ha⟩ := hnum n (List.mem_cons_self _ _)
      subst ha
      obtain ⟨qa, qb, hqa, hqb, hle⟩ := foldl_jmin_jmax_le rest a a (le_refl a)
        (fun e he => hnum e (List.mem_cons_of_mem _ he))
      refine ⟨qa, qb, ?_, ?_, hle⟩
      · injection h1 with h1'
        rw [h1', hqa]
      · injection h2 with h2'
        rw [h2', hqb]

/-- C6 counterexample: in a column whose two non-empty values are "1" and
"a", exactly 50 percent of the values parse as numbers (meeting the claim's
"at least 50 percent" bound), yet the Profiler classifies the column as Text,
not Numeric. -/
theorem profiler_half_numeric_is_text :
    2 * (columnTypes modelIsNum modelIsDate [[("c", "1")], [("c", "a")]] "c").count .numeric
      ≥ (columnTypes modelIsNum modelIsDate [[("c", "1")], [("c", "a")]] "c").length
    ∧ (profileColumn modelIsNum modelIsDate [[("c", "1")], [("c", "a")]] "c").type
      = .text := by
  constructor
  · decide
  · decide

/-- Witness for C6 (amended) on a column of three numeric values. -/
theorem profiler_numeric_majority_minmax_witness :
    (profileColumn modelIsNum modelIsDate [[("c", "1")], [("c", "3")], [("c", "2")]] "c").type
      = .numeric
    ∧ ∃ qa qb, JNum.num (1 : ℚ) = .num qa ∧ JNum.num (3 : ℚ) = .num qb ∧ qa ≤ qb := by
  have hp : ∀ v, modelIsNum v = true → (parseFloat? v).isSome = true := fun _ h => h
  have h := profiler_numeric_majority_minmax modelIsNum modelIsDate
    [[("c", "1")], [("c", "3")], [("c", "2")]] "c" hp
  exact ⟨h.1 (by decide), h.2 (JNum.num 1) (JNum.num 3) (by decide) (by decide)⟩

/-- C7: min and max are present if and only if the resolved type is Numeric
and at least one value independently re-classifies as numeric, and when
present they are computed over exactly that numeric-classifying subset. -/
theorem profiler_minmax_iff (isNum isDate : String → Bool) (data : List Row) (name : String) :
    ((profileColumn isNum isDate data name).min?
      = if (profileColumn isNum isDate data name).type = .numeric then
          match (numericSubset isNum isDate data name).map parseFloatJN with
          | [] => none
          | n :: rest => some (rest.foldl JNum.jmin n)
        else none)
    ∧ ((profileColumn isNum isDate data name).max?
      = if (profileColumn isNum isDate data name).type = .numeric then
          match (numericSubset isNum isDate data name).map parseFloatJN with
          | [] => none
          | n :: rest => some (rest.foldl JNum.jmax n)
        else none)
    ∧ ((profileColumn isNum isDate data name).min?.isSome = true ↔
        (profileColumn isNum isDate data name).type = .numeric
          ∧ 0 < (numericSubset isNum isDate data name).length)
    ∧ ((profileColumn isNum isDate data name).max?.isSome = true ↔
        (profileColumn isNum isDate data name).type = .numeric
          ∧ 0 < (numericSubset isNum isDate data name).length) := by
  have hstats := profileColumn_stats isNum isDate data name
  have h1 : (profileColumn isNum isDate data name).min?
      = if (profileColumn isNum isDate data name).type = .numeric then
          match (numericSubset isNum isDate data name).map parseFloatJN with
          | [] => none
          | n :: rest => some (rest.foldl JNum.jmin n)
        else none := by
    have h := congrArg Prod.fst hstats
    dsimp only at h
    rw [h]
    split
    · rcases (numericSubset isNum isDate data name).map parseFloatJN with _ | ⟨n, rest⟩ <;> rfl
    · rfl
  have h2 : (profileColumn isNum isDate data name).max?
      = if (profileColumn isNum isDate data name).type = .numeric then
          match (numericSubset isNum isDate data name).map parseFloatJN with
          | [] => none
          | n :: rest => some (rest.foldl JNum.jmax n)
        else none := by
    have h := congrArg Prod.snd hstats
    dsimp only at h
    rw [h]
    split
    · rcases (numericSubset isNum isDate data name).map parseFloatJN with _ | ⟨n, rest⟩ <;> rfl
    · rfl
  have hlen : ((numericSubset isNum isDate data name).map parseFloatJN).length
      = (numericSubset isNum isDate data name).length := List.length_map _ _
  refine ⟨h1, h2, ?_, ?_⟩
  · rw [h1]
    by_cases ht : (profileColumn isNum isDate data name).type = .numeric
    · rw [if_pos ht]
      rcases hl : (numericSubset isNum isDate data name).map parseFloatJN with _ | ⟨n, rest⟩
      · rw [hl] at hlen
        simp only [List.length_nil] at hlen
        simp [ht, ← hlen]
      · have : 0 < (numericSubset isNum isDate data name).length := by
          rw [← hlen, hl]
          simp
        simp [ht, this]
    · simp [ht]
  · rw [h2]
    by_cases ht : (profileColumn isNum isDate data name).type = .numeric
    · rw [if_pos ht]
      rcases hl : (numericSubset isNum isDate data name).map parseFloatJN with _ | ⟨n, rest⟩
      · rw [hl] at hlen
        simp only [List.length_nil] at hlen
        simp [ht, ← hlen]
      · have : 0 < (numericSubset isNum isDate data name).length := by
          rw [← hlen, hl]
          simp
        simp [ht, this]
    · simp [ht]

/-- Witness for C5's value-classification conjunct at the value "7". -/
theorem profiler_strict_majority_witness :
    getValueType modelIsNum modelIsDate "7" = .numeric :=
  (profiler_strict_majority modelIsNum modelIsDate [] "c").2.2.2 "7" (by decide) (by decide)

/-! ## C4: the Pie strategy -/

/-- The running `value` field of one pie category over a processed prefix. -/
def pieRawV (transform x y : String) (done : List Row) (cat : String) : ℚ :=
  if transform = "count" then ((catRows done x cat).length : ℚ)
  else ((catRows done x cat).map (coerceCell y)).sum

/-- The running `count` field of one pie category over a processed prefix. -/
def pieRawC (transform x : String) (done : List Row) (cat : String) : ℕ :=
  if transform = "average" then (catRows done x cat).length else 0

theorem catRows_append_one (done : List Row) (r : Row) (x cat : String) :
    catRows (done ++ [r]) x cat
      = catRows done x cat ++ (if cellS r x = cat then [r] else []) := by
  rw [catRows, catRows, List.filter_append]
  congr 1
  by_cases h : cellS r x = cat <;> simp [List.filter, h]

theorem catRows_nil_of_not_mem (done : List Row) (x cat : String)
    (h : cat ∉ done.map (fun r => cellS r x)) : catRows done x cat = [] := by
  rw [catRows, List.filter_eq_nil_iff]
  intro r hr
  simp only [decide_eq_true_eq]
  intro he
  exact h (List.mem_map.mpr ⟨r, hr, he⟩)

theorem length_catRows_pos (done : List Row) (x cat : String)
    (h : cat ∈ done.map (fun r => cellS r x)) : 0 < (catRows done x cat).length := by
  obtain ⟨r, hr, hc⟩ := List.mem_map.mp h
  have : r ∈ catRows done x cat := by
    rw [catRows, List.mem_filter]
    exact ⟨hr, by simpa using hc⟩
  exact List.length_pos.mpr (fun he => by rw [he] at this; exact List.not_mem_nil r this)

theorem dedupFirstAux_append_one [DecidableEq α] (l : List α) (a : α) :
    ∀ seen, dedupFirstAux seen (l ++ [a])
      = if a ∈ seen ∨ a ∈ l then dedupFirstAux seen l else dedupFirstAux seen l ++ [a] := by
  induction l with
  | nil =>
    intro seen
    by_cases h : a ∈ seen <;> simp [dedupFirstAux, h]
  | cons x xs ih =>
    intro seen
    rw [List.cons_append, dedupFirstAux, dedupFirstAux]
    by_cases hx : x ∈ seen
    · rw [if_pos hx, if_pos hx, ih]
      by_cases ha : a ∈ seen ∨ a ∈ x :: xs
      · rcases ha with ha | ha
        · simp [ha]
        · rcases List.mem_cons.mp ha with ha | ha
          · subst ha
            simp [hx]
          · simp [ha]
      · rw [if_neg, if_neg ha]
        intro hcon
        apply ha
        rcases hcon with h | h
        · exact Or.inl h
        · exact Or.inr (List.mem_cons_of_mem _ h)
    · simp only [if_neg hx]
      rw [ih (x :: seen)]
      by_cases ha : a ∈ x :: seen ∨ a ∈ xs
      · have ha' : a ∈ seen ∨ a ∈ x :: xs := by
          rcases ha with ha | ha
          · rcases List.mem_cons.mp ha with ha | ha
            · subst ha; exact Or.inr (List.mem_cons_self _ _)
            · exact Or.inl ha
          · exact Or.inr (List.mem_cons_of_mem _ ha)
        rw [if_pos ha, if_pos ha']
      · have ha' : ¬ (a ∈ seen ∨ a ∈ x :: xs) := by
          intro hcon
          apply ha
          rcases hcon with h | h
          · exact Or.inl (List.mem_cons_of_mem _ h)
          · rcases List.mem_cons.mp h with h | h
            · subst h; exact Or.inl (List.mem_cons_self _ _)
            · exact Or.inr h
        rw [if_neg ha, if_neg ha']
        rfl

theorem dedupFirst_append_one [DecidableEq α] (l : List α) (a : α) :
    dedupFirst (l ++ [a]) = if a ∈ l then dedupFirst l else dedupFirst l ++ [a] := by
  rw [dedupFirst, dedupFirst, dedupFirstAux_append_one]
  simp

/-- The invariant of the pie aggregation fold. -/
def PieInv (transform x y : String) (done : List Row) (agg : List (String × ℚ × ℕ)) : Prop :=
  agg.map Prod.fst = dedupFirst (done.map (fun r => cellS r x))
  ∧ ∀ cat ∈ agg.map Prod.fst,
      jget agg cat = some (pieRawV transform x y done cat, pieRawC transform x done cat)

theorem pieRaw_append_other (transform x y : String) (done : List Row) (r : Row)
    (cat : String) (h : cellS r x ≠ cat) :
    pieRawV transform x y (done ++ [r]) cat = pieRawV transform x y done cat
    ∧ pieRawC transform x (done ++ [r]) cat = pieRawC transform x done cat := by
  have hc : catRows (done ++ [r]) x cat = catRows done x cat := by
    rw [catRows_append_one, if_neg h, List.append_nil]
  refine ⟨?_, ?_⟩
  · rw [pieRawV, pieRawV, hc]
  · rw [pieRawC, pieRawC, hc]

theorem pieRaw_append_self (transform x y : String) (done : List Row) (r : Row)
    (cat : String) (h : cellS r x = cat) :
    pieRawV transform x y (done ++ [r]) cat
      = (if transform = "count" then pieRawV transform x y done cat + 1
         else pieRawV transform x y done cat + coerceCell y r)
    ∧ pieRawC transform x (done ++ [r]) cat
      = (if transform = "average" then pieRawC transform x done cat + 1
         else pieRawC transform x done cat) := by
  have hc : catRows (done ++ [r]) x cat = catRows done x cat ++ [r] := by
    rw [catRows_append_one, if_pos h]
  constructor
  · rw [pieRawV, pieRawV, hc]
    by_cases ht : transform = "count"
    · simp [ht]
    · simp [ht]
  · rw [pieRawC, pieRawC, hc]
    by_cases ht : transform = "average"
    · simp [ht]
    · simp [ht]

theorem pieStep_inv (transform x y : String) (done : List Row) (r : Row)
    (agg : List (String × ℚ × ℕ)) (hinv : PieInv transform x y done agg) :
    PieInv transform x y (done ++ [r]) (pieStep x y transform agg r) := by
  obtain ⟨hkeys, hvals⟩ := hinv
  rw [pieStep]
  by_cases hmem : (jget agg (cellS r x)).isSome = true
  · -- existing category: agg1 = agg
    rw [if_pos hmem]
    have hmemk : cellS r x ∈ agg.map Prod.fst := (jget_isSome_iff_mem_keys agg _).mp hmem
    have hckeys : (jset agg (cellS r x)
        (if transform = "sum" then
          (((jget agg (cellS r x)).getD (0, 0)).1 + coerceCell y r,
            ((jget agg (cellS r x)).getD (0, 0)).2)
        else if transform = "average" then
          (((jget agg (cellS r x)).getD (0, 0)).1 + coerceCell y r,
            ((jget agg (cellS r x)).getD (0, 0)).2 + 1)
        else if transform = "count" then
          (((jget agg (cellS r x)).getD (0, 0)).1 + 1, ((jget agg (cellS r x)).getD (0, 0)).2)
        else
          (((jget agg (cellS r x)).getD (0, 0)).1 + coerceCell y r,
            ((jget agg (cellS r x)).getD (0, 0)).2))).map Prod.fst
        = agg.map Prod.fst := jset_keys_mem _ _ _ hmemk
    have hdedup : dedupFirst ((done ++ [r]).map (fun r => cellS r x))
        = dedupFirst (done.map (fun r => cellS r x)) := by
      rw [List.map_append, List.map_singleton, dedupFirst_append_one, if_pos]
      rw [← mem_dedupFirst, ← hkeys]
      exact hmemk
    constructor
    · rw [hckeys, hkeys, hdedup]
    · intro cat hcat
      rw [hckeys] at hcat
      have hraw := hvals (cellS r x) hmemk
      by_cases hcc : cellS r x = cat
      · subst hcc
        rw [jget_jset_self, hraw]
        obtain ⟨hV, hC⟩ := pieRaw_append_self transform x y done r (cellS r x) rfl
        rw [hV, hC, Option.getD_some]
        by_cases h1 : transform = "sum"
        · have h2 : transform ≠ "count" := by rw [h1]; decide
          have h3 : transform ≠ "average" := by rw [h1]; decide
          simp [h1, h2, h3]
        · by_cases h2 : transform = "average"
          · have h3 : transform ≠ "count" := by rw [h2]; decide
            simp [h1, h2, h3]
          · by_cases h3 : transform = "count"
            · have h4 : transform ≠ "average" := h2
              simp [h1, h2, h3]
            · simp [h1, h2, h3]
      · rw [jget_jset_ne _ _ _ _ hcc]
        obtain ⟨hV, hC⟩ := pieRaw_append_other transform x y done r cat hcc
        rw [hV, hC]
        exact hvals cat hcat
  · -- fresh category
    rw [if_neg hmem]
    have hnone : jget agg (cellS r x) = none := by
      rcases hj : jget agg (cellS r x) with _ | v
      · rfl
      · rw [hj] at hmem; simp at hmem
    have hfreshk : cellS r x ∉ agg.map Prod.fst := by
      rw [← jget_isSome_iff_mem_keys, hnone]
      simp
    have hset1 : jset agg (cellS r x) ((0 : ℚ), (0 : ℕ)) = agg ++ [(cellS r x, (0, 0))] := by
      clear hvals hkeys hnone hmem
      induction agg with
      | nil => rfl
      | cons p rest ih =>
        obtain ⟨k, v⟩ := p
        simp only [List.map_cons, List.mem_cons, not_or] at hfreshk
        rw [jset, if_neg (Ne.symm hfreshk.1), List.cons_append]
        rw [ih hfreshk.2]
    have hg1 : jget (jset agg (cellS r x) ((0 : ℚ), (0 : ℕ))) (cellS r x)
        = some (0, 0) := jget_jset_self ..
    have hk1 : (jset agg (cellS r x) ((0 : ℚ), (0 : ℕ))).map Prod.fst
        = agg.map Prod.fst ++ [cellS r x] := jset_keys_fresh _ _ _ hfreshk
    have hmem1 : cellS r x ∈ (jset agg (cellS r x) ((0 : ℚ), (0 : ℕ))).map Prod.fst := by
      rw [hk1]
      simp
    have hnotdone : cellS r x ∉ done.map (fun r => cellS r x) := by
      intro hmm
      apply hfreshk
      rw [hkeys, mem_dedupFirst]
      exact hmm
    have hdedup : dedupFirst ((done ++ [r]).map (fun r => cellS r x))
        = dedupFirst (done.map (fun r => cellS r x)) ++ [cellS r x] := by
      rw [List.map_append, List.map_singleton, dedupFirst_append_one, if_neg hnotdone]
    have hnilcat : catRows done x (cellS r x) = [] :=
      catRows_nil_of_not_mem done x (cellS r x) hnotdone
    have hrawV0 : pieRawV transform x y done (cellS r x) = 0 := by
      rw [pieRawV, hnilcat]
      split <;> simp
    have hrawC0 : pieRawC transform x done (cellS r x) = 0 := by
      rw [pieRawC, hnilcat]
      split <;> simp
    rw [hg1]
    constructor
    · rw [jset_keys_mem _ _ _ hmem1, hk1, hkeys, hdedup]
    · intro cat hcat
      rw [jset_keys_mem _ _ _ hmem1, hk1] at hcat
      by_cases hcc : cellS r x = cat
      · subst hcc
        rw [jget_jset_self]
        obtain ⟨hV, hC⟩ := pieRaw_append_self transform x y done r (cellS r x) rfl
        rw [hV, hC, hrawV0, hrawC0, Option.getD_some]
        by_cases h1 : transform = "sum"
        · have h2 : transform ≠ "count" := by rw [h1]; decide
          have h3 : transform ≠ "average" := by rw [h1]; decide
          simp [h1, h2, h3]
        · by_cases h2 : transform = "average"
          · have h3 : transform ≠ "count" := by rw [h2]; decide
            simp [h1, h2, h3]
          · by_cases h3 : transform = "count"
            · simp [h1, h2, h3]
            · simp [h1, h2, h3]
      · have hcat' : cat ∈ agg.map Prod.fst := by
          rcases List.mem_append.mp hcat with h | h
          · exact h
          · simp only [List.mem_singleton] at h
            exact absurd h.symm hcc
        rw [jget_jset_ne _ _ _ _ hcc, jget_jset_ne _ _ _ _ hcc]
        obtain ⟨hV, hC⟩ := pieRaw_append_other transform x y done r cat hcc
        rw [hV, hC]
        exact hvals cat hcat'

theorem pieFold_inv (transform x y : String) (rows : List Row) :
    ∀ done agg, PieInv transform x y done agg →
      PieInv transform x y (done ++ rows) (rows.foldl (pieStep x y transform) agg) := by
  induction rows with
  | nil =>
    intro done agg h
    simpa using h
  | cons r rest ih =>
    intro done agg h
    rw [List.foldl_cons]
    have h2 := ih (done ++ [r]) _ (pieStep_inv transform x y done r agg h)
    rwa [List.append_assoc] at h2

theorem mem_insPie (p a : String × ℚ) (l : List (String × ℚ)) :
    a ∈ insPie p l ↔ a = p ∨ a ∈ l := by
  induction l with
  | nil => simp [insPie]
  | cons q qs ih =>
    rw [insPie]
    by_cases h : q.2 < p.2
    · simp [h]
    · rw [if_neg h]
      simp only [List.mem_cons, ih]
      tauto

theorem insPie_perm (p : String × ℚ) (l : List (String × ℚ)) :
    List.Perm (insPie p l) (p :: l) := by
  induction l with
  | nil => simp [insPie]
  | cons q qs ih =>
    rw [insPie]
    by_cases h : q.2 < p.2
    · rw [if_pos h]
    · rw [if_neg h]
      exact (ih.cons q).trans (List.Perm.swap _ _ _)

theorem insPie_sorted (p : String × ℚ) (l : List (String × ℚ))
    (h : l.Pairwise (fun a b => b.2 ≤ a.2)) :
    (insPie p l).Pairwise (fun a b => b.2 ≤ a.2) := by
  induction l with
  | nil => simp [insPie]
  | cons q qs ih =>
    rw [List.pairwise_cons] at h
    rw [insPie]
    by_cases hlt : q.2 < p.2
    · rw [if_pos hlt]
      rw [List.pairwise_cons]
      refine ⟨?_, List.pairwise_cons.mpr h⟩
      intro b hb
      rcases List.mem_cons.mp hb with hb | hb
      · subst hb; exact le_of_lt hlt
      · exact le_trans (h.1 b hb) (le_of_lt hlt)
    · rw [if_neg hlt]
      rw [List.pairwise_cons]
      refine ⟨?_, ih h.2⟩
      intro b hb
      rcases (mem_insPie p b qs).mp hb with hb | hb
      · subst hb; exact le_of_not_lt hlt
      · exact h.1 b hb

theorem foldl_insPie_perm (l : List (String × ℚ)) :
    ∀ acc, List.Perm (l.foldl (fun acc p => insPie p acc) acc) (l ++ acc) := by
  induction l with
  | nil => intro acc; simp
  | cons p rest ih =>
    intro acc
    rw [List.foldl_cons]
    refine (ih (insPie p acc)).trans ?_
    refine (List.Perm.append_left rest (insPie_perm p acc)).trans ?_
    exact List.perm_middle

theorem sortPieDesc_perm (l : List (String × ℚ)) : List.Perm (sortPieDesc l) l := by
  rw [sortPieDesc]
  simpa using foldl_insPie_perm l []

theorem sortPieDesc_sorted (l : List (String × ℚ)) :
    (sortPieDesc l).Pairwise (fun a b => b.2 ≤ a.2) := by
  rw [sortPieDesc]
  suffices h : ∀ acc, acc.Pairwise (fun a b => b.2 ≤ a.2) →
      (l.foldl (fun acc p => insPie p acc) acc).Pairwise (fun a b => b.2 ≤ a.2) by
    exact h [] (by simp)
  induction l with
  | nil => exact fun acc h => h
  | cons p rest ih =>
    intro acc hacc
    rw [List.foldl_cons]
    exact ih _ (insPie_sorted p acc hacc)

theorem pieValue_eq_raw (transform x y : String) (data : List Row) (cat : String) :
    pieValue transform x y data cat
      = if transform = "average"
        then pieRawV transform x y data cat / (pieRawC transform x data cat : ℚ)
        else pieRawV transform x y data cat := by
  rw [pieValue, pieRawV, pieRawC]
  by_cases h1 : transform = "average"
  · have h2 : transform ≠ "count" := by rw [h1]; decide
    simp [h1, h2]
  · by_cases h2 : transform = "count"
    · simp [h1, h2]
    · simp [h1, h2]

/-- C4: for chartType pie the dispatcher ignores groupBy entirely, the output
names are exactly the distinct x-categories, each value carries the four
transform semantics (sum / average / count / default-to-sum) over the rows of
its category, and the list is sorted non-increasing by value — for every row
set and every dataTransform. -/
theorem pie_ignores_groupBy_and_aggregates (data : List Row) (x y transform : String)
    (gb : Option String) :
    prepareChartData "pie" x y gb transform data
      = .pie (preparePieData data x y transform)
    ∧ (preparePieData data x y transform).Pairwise (fun a b => b.2 ≤ a.2)
    ∧ List.Perm ((preparePieData data x y transform).map Prod.fst)
        (dedupFirst (data.map (fun r => cellS r x)))
    ∧ ∀ p ∈ preparePieData data x y transform,
        p.2 = pieValue transform x y data p.1 := by
  have hinit : PieInv transform x y [] [] := by
    constructor
    · rfl
    · intro cat hcat
      simp at hcat
  have hinv : PieInv transform x y data (data.foldl (pieStep x y transform) []) := by
    have := pieFold_inv transform x y data [] [] hinit
    simpa using this
  obtain ⟨hkeys, hvals⟩ := hinv
  have hentkeys : ((data.foldl (pieStep x y transform) []).map (fun p =>
      (p.1, if transform = "average" then p.2.1 / (p.2.2 : ℚ) else p.2.1))).map Prod.fst
      = (data.foldl (pieStep x y transform) []).map Prod.fst := by
    rw [List.map_map]
    rfl
  refine ⟨rfl, ?_, ?_, ?_⟩
  · exact sortPieDesc_sorted _
  · rw [preparePieData]
    refine ((sortPieDesc_perm _).map Prod.fst).trans ?_
    rw [hentkeys, hkeys]
  · intro p hp
    rw [preparePieData] at hp
    have hp2 : p ∈ (data.foldl (pieStep x y transform) []).map (fun p =>
        (p.1, if transform = "average" then p.2.1 / (p.2.2 : ℚ) else p.2.1)) :=
      (sortPieDesc_perm _).mem_iff.mp hp
    obtain ⟨e, he, rfl⟩ := List.mem_map.mp hp2
    obtain ⟨cat, v, c⟩ := e
    have hnd : ((data.foldl (pieStep x y transform) []).map Prod.fst).Nodup := by
      rw [hkeys]
      exact nodup_dedupFirst _
    have hg := mem_jget_of_nodup_keys hnd he
    have hck : cat ∈ (data.foldl (pieStep x y transform) []).map Prod.fst :=
      List.mem_map.mpr ⟨(cat, v, c), he, rfl⟩
    have hraw := hvals cat hck
    rw [hg] at hraw
    injection hraw with hraw'
    have hv : v = pieRawV transform x y data cat := congrArg Prod.fst hraw'
    have hc : c = pieRawC transform x data cat := congrArg Prod.snd hraw'
    rw [pieValue_eq_raw]
    dsimp only
    rw [hv, hc]

/-- The specification's worked example rows. -/
def exampleRows : List Row :=
  [[("region", "east"), ("month", "Jan"), ("sales", "10")],
   [("region", "east"), ("month", "Feb"), ("sales", "20")],
   [("region", "west"), ("month", "Jan"), ("sales", "5")]]

/-- Witness for C4 at the specification's pie example. -/
theorem pie_ignores_groupBy_witness :
    (("east", (30 : ℚ)) : String × ℚ).2 = pieValue "sum" "region" "sales" exampleRows "east" :=
  (pie_ignores_groupBy_and_aggregates exampleRows "region" "sales" "sum" none).2.2.2
    ("east", 30) (by decide)

/-! ## C2, C3, C10: the Grouped strategy -/

theorem mem_insStr (a b : String) (l : List String) :
    a ∈ insStr b l ↔ a = b ∨ a ∈ l := by
  induction l with
  | nil => simp [insStr]
  | cons c cs ih =>
    rw [insStr]
    by_cases h : strLe b c
    · simp [h]
    · rw [if_neg h]
      simp only [List.mem_cons, ih]
      tauto

theorem mem_sortStr (a : String) (l : List String) : a ∈ sortStr l ↔ a ∈ l := by
  induction l with
  | nil => simp [sortStr]
  | cons c cs ih =>
    rw [sortStr, List.foldr_cons, mem_insStr]
    rw [sortStr] at ih
    rw [ih]
    simp

theorem insStr_perm (a : String) (l : List String) : List.Perm (insStr a l) (a :: l) := by
  induction l with
  | nil => simp [insStr]
  | cons c cs ih =>
    rw [insStr]
    by_cases h : strLe a c
    · rw [if_pos h]
    · rw [if_neg h]
      exact (ih.cons c).trans (List.Perm.swap _ _ _)

theorem sortStr_perm (l : List String) : List.Perm (sortStr l) l := by
  induction l with
  | nil => simp [sortStr]
  | cons c cs ih =>
    rw [sortStr, List.foldr_cons]
    refine (insStr_perm c _).trans ?_
    exact List.Perm.cons c ih

theorem mem_insNat (a b : String) (l : List String) :
    a ∈ insNat b l ↔ a = b ∨ a ∈ l := by
  induction l with
  | nil => simp [insNat]
  | cons c cs ih =>
    rw [insNat]
    by_cases h : keyNat b ≤ keyNat c
    · simp [h]
    · rw [if_neg h]
      simp only [List.mem_cons, ih]
      tauto

theorem insNat_perm (a : String) (l : List String) : List.Perm (insNat a l) (a :: l) := by
  induction l with
  | nil => simp [insNat]
  | cons c cs ih =>
    rw [insNat]
    by_cases h : keyNat a ≤ keyNat c
    · rw [if_pos h]
    · rw [if_neg h]
      exact (ih.cons c).trans (List.Perm.swap _ _ _)

theorem sortNat_perm (l : List String) : List.Perm (sortNat l) l := by
  induction l with
  | nil => simp [sortNat]
  | cons c cs ih =>
    rw [sortNat, List.foldr_cons]
    refine (insNat_perm c _).trans ?_
    exact List.Perm.cons c ih

theorem mem_jsOrderKeys (a : String) (l : List String) : a ∈ jsOrderKeys l ↔ a ∈ l := by
  rw [jsOrderKeys, List.mem_append, (sortNat_perm _).mem_iff]
  constructor
  · intro h
    rcases h with h | h
    · exact List.mem_of_mem_filter h
    · exact List.mem_of_mem_filter h
  · intro h
    by_cases hi : isArrayIndex a
    · exact Or.inl (List.mem_filter.mpr ⟨h, by simpa using hi⟩)
    · exact Or.inr (List.mem_filter.mpr ⟨h, by simpa using hi⟩)

theorem length_jsOrderKeys (l : List String) : (jsOrderKeys l).length = l.length := by
  rw [jsOrderKeys, List.length_append, (sortNat_perm _).length_eq]
  have := (List.filter_append_perm (fun s => isArrayIndex s) l).length_eq
  simpa [List.length_append] using this

theorem string_append_right_cancel (a b c : String) (h : a ++ c = b ++ c) : a = b := by
  have h2 : (a ++ c).data = (b ++ c).data := congrArg String.data h
  rw [String.data_append, String.data_append] at h2
  have h3 := List.append_cancel_right h2
  cases a
  cases b
  exact congrArg String.mk h3

theorem groupedInit_aux (x : String) (gs : List String) (ux : List String) :
    ∀ acc : JObj, (∀ xv ∈ ux, xv ∉ acc.map Prod.fst) → ux.Nodup →
      ((ux.foldl (fun gd xv => jset gd xv (seedRecord x gs xv)) acc).map Prod.fst
        = acc.map Prod.fst ++ ux)
      ∧ (∀ xv ∈ ux,
          jget (ux.foldl (fun gd xv => jset gd xv (seedRecord x gs xv)) acc) xv
            = some (seedRecord x gs xv))
      ∧ (∀ k, k ∉ ux →
          jget (ux.foldl (fun gd xv => jset gd xv (seedRecord x gs xv)) acc) k
            = jget acc k) := by
  induction ux with
  | nil =>
    intro acc _ _
    refine ⟨by simp, by simp, fun k _ => rfl⟩
  | cons xv0 rest ih =>
    intro acc hfresh hnd
    rw [List.nodup_cons] at hnd
    have hfr0 : xv0 ∉ acc.map Prod.fst := hfresh xv0 (List.mem_cons_self _ _)
    have hfresh' : ∀ xv ∈ rest, xv ∉ (jset acc xv0 (seedRecord x gs xv0)).map Prod.fst := by
      intro xv hxv
      rw [jset_keys_fresh _ _ _ hfr0, List.mem_append]
      intro hcon
      rcases hcon with h | h
      · exact hfresh xv (List.mem_cons_of_mem _ hxv) h
      · simp only [List.mem_singleton] at h
        subst h
        exact hnd.1 hxv
    obtain ⟨ihk, ihg, ihp⟩ := ih (jset acc xv0 (seedRecord x gs xv0)) hfresh' hnd.2
    rw [List.foldl_cons]
    refine ⟨?_, ?_, ?_⟩
    · rw [ihk, jset_keys_fresh _ _ _ hfr0, List.append_assoc]
      rfl
    · intro xv hxv
      rcases List.mem_cons.mp hxv with rfl | hxv
      · rw [ihp _ hnd.1, jget_jset_self]
      · exact ihg xv hxv
    · intro k hk
      simp only [List.mem_cons, not_or] at hk
      rw [ihp k hk.2, jget_jset_ne _ _ _ _ (fun he => hk.1 he.symm)]

theorem groupedStep_keys (x y g t : String) (gd : JObj) (r : Row) :
    (groupedStep x y g t gd r).map Prod.fst = gd.map Prod.fst := by
  rw [groupedStep]
  rcases hj : jget gd (cellS r x) with _ | item
  · rfl
  · dsimp only
    apply jset_keys_mem
    rw [← jget_isSome_iff_mem_keys, hj]
    rfl

theorem groupedFold_keys (x y g t : String) (rows : List Row) :
    ∀ gd : JObj, (rows.foldl (groupedStep x y g t) gd).map Prod.fst = gd.map Prod.fst := by
  induction rows with
  | nil => intro gd; rfl
  | cons r rest ih =>
    intro gd
    rw [List.foldl_cons, ih, groupedStep_keys]

theorem seedRecord_group (x : String) (gs : List String) (xv g' : String) (h : g' ∈ gs) :
    jget (seedRecord x gs xv) g' = some (.num 0) := by
  rw [seedRecord]
  suffices hs : ∀ acc : JRecord, (g' ∈ gs ∨ jget acc g' = some (.num 0)) →
      jget (gs.foldl (fun r g => jset r g (JVal.num 0)) acc) g' = some (.num 0) by
    exact hs _ (Or.inl h)
  clear h
  induction gs with
  | nil =>
    intro acc h
    rcases h with h | h
    · simp at h
    · exact h
  | cons g0 rest ih =>
    intro acc h
    rw [List.foldl_cons]
    by_cases hg : g' = g0
    · subst hg
      refine ih _ ?_
      by_cases hr : g' ∈ rest
      · exact Or.inl hr
      · exact Or.inr (jget_jset_self ..)
    · refine ih _ ?_
      rcases h with h | h
      · rcases List.mem_cons.mp h with h | h
        · exact absurd h hg
        · exact Or.inl h
      · exact Or.inr (by rw [jget_jset_ne _ _ _ _ (fun he => hg he.symm)]; exact h)

theorem seedRecord_untouched (x : String) (gs : List String) (xv k : String) (h : k ∉ gs) :
    jget (seedRecord x gs xv) k = jget [(x, JVal.str xv)] k := by
  rw [seedRecord]
  have hbase : jset ([] : JRecord) x (JVal.str xv) = [(x, JVal.str xv)] := rfl
  rw [hbase]
  suffices hs : ∀ acc : JRecord, k ∉ gs →
      jget (gs.foldl (fun r g => jset r g (JVal.num 0)) acc) k = jget acc k by
    exact hs _ h
  clear h
  induction gs with
  | nil => exact fun acc _ => rfl
  | cons g0 rest ih =>
    intro acc h
    simp only [List.mem_cons, not_or] at h
    rw [List.foldl_cons, ih _ h.2, jget_jset_ne _ _ _ _ (fun he => h.1 he.symm)]

theorem seedRecord_x (x : String) (gs : List String) (xv : String) (h : x ∉ gs) :
    jget (seedRecord x gs xv) x = some (.str xv) := by
  rw [seedRecord_untouched x gs xv x h, jget_cons, if_pos rfl]

theorem seedRecord_none (x : String) (gs : List String) (xv k : String)
    (h1 : k ∉ gs) (h2 : k ≠ x) :
    jget (seedRecord x gs xv) k = none := by
  rw [seedRecord_untouched x gs xv k h1, jget_cons, if_neg (fun he => h2 he.symm)]
  rfl

theorem matchRows_append_one (done : List Row) (r : Row) (x g xv gv : String) :
    matchRows (done ++ [r]) x g xv gv
      = matchRows done x g xv gv
        ++ (if cellS r x = xv ∧ cellS r g = gv then [r] else []) := by
  rw [matchRows, matchRows, List.filter_append]
  congr 1
  by_cases h : cellS r x = xv ∧ cellS r g = gv <;> simp [List.filter, h]

theorem matchSum_append_one (done : List Row) (r : Row) (x y g xv gv : String) :
    matchSum (done ++ [r]) x y g xv gv
      = matchSum done x y g xv gv
        + (if cellS r x = xv ∧ cellS r g = gv then coerceCell y r else 0) := by
  rw [matchSum, matchSum, matchRows_append_one, List.map_append, List.sum_append]
  congr 1
  by_cases h : cellS r x = xv ∧ cellS r g = gv <;> simp [h]

theorem matchCnt_append_one (done : List Row) (r : Row) (x g xv gv : String) :
    matchCnt (done ++ [r]) x g xv gv
      = matchCnt done x g xv gv + (if cellS r x = xv ∧ cellS r g = gv then 1 else 0) := by
  rw [matchCnt, matchCnt, matchRows_append_one, List.length_append]
  congr 1
  by_cases h : cellS r x = xv ∧ cellS r g = gv <;> simp [h]

theorem matchSum_of_cnt_zero (done : List Row) (x y g xv gv : String)
    (h : matchCnt done x g xv gv = 0) : matchSum done x y g xv gv = 0 := by
  rw [matchCnt] at h
  rw [matchSum, List.length_eq_zero.mp h]
  rfl

/-- The accumulated cell value for the sum/count/none transforms. -/
def accVal (t : String) (data : List Row) (x y g xv gv : String) : ℚ :=
  if t = "count" then (matchCnt data x g xv gv : ℚ) else matchSum data x y g xv gv

/-- Invariant of the accumulation fold for every transform except average. -/
def SimpleInv (x y g t : String) (ux gs : List String) (done : List Row) (gd : JObj) : Prop :=
  gd.map Prod.fst = ux
  ∧ ∀ xv ∈ ux, ∃ item, jget gd xv = some item
      ∧ (x ∉ gs → jget item x = some (.str xv))
      ∧ ∀ g' ∈ gs, jget item g' = some (.num (accVal t done x y g xv g'))

theorem groupedStep_simple_eq (x y g t : String) (gd : JObj) (r : Row) (item : JRecord)
    (a : ℚ) (ht : t ≠ "average")
    (hj : jget gd (cellS r x) = some item)
    (hg : jget item (cellS r g) = some (.num a)) :
    groupedStep x y g t gd r
      = jset gd (cellS r x)
          (jset item (cellS r g)
            (.num (a + (if t = "count" then 1 else coerceCell y r)))) := by
  rw [groupedStep]
  rw [hj]
  dsimp only
  have hgetJ : getJ item (cellS r g) = .num a := by rw [getJ, hg, Option.getD_some]
  by_cases h1 : t = "sum"
  · have h2 : t ≠ "count" := by rw [h1]; decide
    rw [if_pos h1, if_neg h2, hgetJ]
    rfl
  · rw [if_neg h1, if_neg ht]
    by_cases h3 : t = "count"
    · rw [if_pos h3, if_pos h3, hgetJ]
      rfl
    · rw [if_neg h3, if_neg h3, hgetJ]
      rfl

theorem accVal_append_self (t x y g : String) (done : List Row) (r : Row) :
    accVal t (done ++ [r]) x y g (cellS r x) (cellS r g)
      = accVal t done x y g (cellS r x) (cellS r g)
        + (if t = "count" then 1 else coerceCell y r) := by
  by_cases hc : t = "count"
  · subst hc
    rw [accVal, accVal, if_pos rfl, if_pos rfl, if_pos rfl]
    rw [matchCnt_append_one,
      if_pos (show cellS r x = cellS r x ∧ cellS r g = cellS r g from ⟨rfl, rfl⟩)]
    push_cast
    ring
  · rw [accVal, accVal, if_neg hc, if_neg hc, if_neg hc, matchSum_append_one,
      if_pos (show cellS r x = cellS r x ∧ cellS r g = cellS r g from ⟨rfl, rfl⟩)]

theorem accVal_append_other (t x y g : String) (done : List Row) (r : Row) (xv gv : String)
    (h : ¬ (cellS r x = xv ∧ cellS r g = gv)) :
    accVal t (done ++ [r]) x y g xv gv = accVal t done x y g xv gv := by
  by_cases hc : t = "count"
  · rw [accVal, accVal, if_pos hc, if_pos hc, matchCnt_append_one, if_neg h, Nat.add_zero]
  · rw [accVal, accVal, if_neg hc, if_neg hc, matchSum_append_one, if_neg h, add_zero]

theorem simpleStep_inv (x y g t : String) (ux gs : List String) (done : List Row) (r : Row)
    (gd : JObj) (ht : t ≠ "average")
    (hrx : cellS r x ∈ ux) (hrg : cellS r g ∈ gs)
    (hinv : SimpleInv x y g t ux gs done gd) :
    SimpleInv x y g t ux gs (done ++ [r]) (groupedStep x y g t gd r) := by
  obtain ⟨hkeys, hitems⟩ := hinv
  obtain ⟨item, hj, hxf, hgf⟩ := hitems (cellS r x) hrx
  have hg := hgf (cellS r g) hrg
  rw [groupedStep_simple_eq x y g t gd r item _ ht hj hg]
  constructor
  · rw [jset_keys_mem _ _ _ (by rw [hkeys]; exact hrx)]
    exact hkeys
  intro xv hxv
  by_cases hxx : cellS r x = xv
  · subst hxx
    refine ⟨_, jget_jset_self .., ?_, ?_⟩
    · intro hxgs
      have hxg : x ≠ cellS r g := fun he => hxgs (he ▸ hrg)
      rw [jget_jset_ne _ _ _ _ (fun he => hxg he.symm)]
      exact hxf hxgs
    · intro g' hg'
      by_cases hgg : cellS r g = g'
      · subst hgg
        rw [jget_jset_self, accVal_append_self]
      · rw [jget_jset_ne _ _ _ _ hgg,
          accVal_append_other t x y g done r _ _ (fun hc => hgg hc.2)]
        exact hgf g' hg'
  · obtain ⟨item2, hj2, hxf2, hgf2⟩ := hitems xv hxv
    refine ⟨item2, by rw [jget_jset_ne _ _ _ _ hxx]; exact hj2, hxf2, ?_⟩
    intro g' hg'
    rw [accVal_append_other t x y g done r _ _ (fun hc => hxx hc.1)]
    exact hgf2 g' hg'

theorem simpleFold_inv (x y g t : String) (ux gs : List String) (rows : List Row)
    (ht : t ≠ "average")
    (hmem : ∀ r ∈ rows, cellS r x ∈ ux ∧ cellS r g ∈ gs) :
    ∀ done gd, SimpleInv x y g t ux gs done gd →
      SimpleInv x y g t ux gs (done ++ rows) (rows.foldl (groupedStep x y g t) gd) := by
  induction rows with
  | nil =>
    intro done gd h
    simpa using h
  | cons r rest ih =>
    intro done gd h
    rw [List.foldl_cons]
    obtain ⟨h1, h2⟩ := hmem r (List.mem_cons_self _ _)
    have hstep := simpleStep_inv x y g t ux gs done r gd ht h1 h2 h
    have h3 := ih (fun r hr => hmem r (List.mem_cons_of_mem _ hr)) (done ++ [r]) _ hstep
    rwa [List.append_assoc] at h3

theorem jset_jset_self [DecidableEq α] (o : List (α × β)) (k : α) (v1 v2 : β) :
    jset (jset o k v1) k v2 = jset o k v2 := by
  induction o with
  | nil => simp [jset]
  | cons p r ih =>
    obtain ⟨k₀, v₀⟩ := p
    by_cases h : k₀ = k
    · subst h
      simp [jset]
    · simp [jset, h, ih]

theorem jset_comm_of_mem [DecidableEq α] (o : List (α × β)) (k1 k2 : α) (v1 v2 : β)
    (h : k1 ≠ k2) (h2 : k2 ∈ o.map Prod.fst) :
    jset (jset o k1 v1) k2 v2 = jset (jset o k2 v2) k1 v1 := by
  induction o with
  | nil => simp at h2
  | cons p r ih =>
    obtain ⟨k₀, v₀⟩ := p
    by_cases h1 : k₀ = k1
    · subst h1
      rw [jset, if_pos rfl, jset, if_neg h, jset, if_neg h, jset, if_pos rfl]
    · by_cases hk2 : k₀ = k2
      · subst hk2
        rw [jset, if_neg h1, jset, if_pos rfl, jset, if_pos rfl, jset, if_neg h1]
      · have h2' : k2 ∈ r.map Prod.fst := by
          simp only [List.map_cons, List.mem_cons] at h2
          exact h2.resolve_left (fun he => hk2 he.symm)
        rw [jset, if_neg h1, jset, if_neg hk2, jset, if_neg hk2, jset, if_neg h1,
          ih h2']

/-- No group value's synthesized count key collides with another group value
or with the x column name. -/
def noCountCollisions (gs : List String) (x : String) : Prop :=
  ∀ g' ∈ gs, (g' ++ "_count") ∉ gs ∧ (g' ++ "_count") ≠ x

/-- Invariant of the accumulation fold for the average transform: every cell
carries its running sum, and its count key is present exactly when at least
one row has hit the cell. -/
def AvgInv (x y g : String) (ux gs : List String) (done : List Row) (gd : JObj) : Prop :=
  gd.map Prod.fst = ux
  ∧ ∀ xv ∈ ux, ∃ item, jget gd xv = some item
      ∧ (x ∉ gs → jget item x = some (.str xv))
      ∧ ∀ g' ∈ gs,
          jget item g' = some (.num (matchSum done x y g xv g'))
          ∧ jget item (g' ++ "_count")
              = (if matchCnt done x g xv g' = 0 then none
                 else some (.num (matchCnt done x g xv g')))

theorem groupedStep_avg_eq (x y g : String) (gd : JObj) (r : Row) (item : JRecord)
    (sumv : ℚ) (cnt : ℕ)
    (hj : jget gd (cellS r x) = some item)
    (hgv : jget item (cellS r g) = some (.num sumv))
    (hgc : jget item (cellS r g ++ "_count")
      = (if cnt = 0 then none else some (.num cnt)))
    (hne : cellS r g ++ "_count" ≠ cellS r g)
    (hsz : cnt = 0 → sumv = 0) :
    groupedStep x y g "average" gd r
      = jset gd (cellS r x)
          (jset (jset item (cellS r g) (.num (sumv + coerceCell y r)))
            (cellS r g ++ "_count") (.num (cnt + 1))) := by
  rw [groupedStep, hj]
  dsimp only
  rw [if_neg (by decide), if_pos rfl]
  have hgkmem : cellS r g ∈ item.map Prod.fst := by
    rw [← jget_isSome_iff_mem_keys, hgv]
    rfl
  by_cases hc : cnt = 0
  · have hs0 : sumv = 0 := hsz hc
    subst hs0
    rw [if_pos hc] at hgc
    have hget1 : getJ item (cellS r g ++ "_count") = JVal.nan := by
      rw [getJ, hgc]
      rfl
    rw [hget1, if_pos (by rfl)]
    have hget2 : getJ (jset (jset item (cellS r g ++ "_count") (JVal.num 0))
        (cellS r g) (JVal.num 0)) (cellS r g) = JVal.num 0 := by
      rw [getJ, jget_jset_self, Option.getD_some]
    rw [hget2]
    simp only [JVal.add]
    rw [jset_jset_self]
    have hget3 : getJ (jset (jset item (cellS r g ++ "_count") (JVal.num 0))
        (cellS r g) (JVal.num (0 + coerceCell y r))) (cellS r g ++ "_count")
        = JVal.num 0 := by
      rw [getJ, jget_jset_ne _ _ _ _ (Ne.symm hne), jget_jset_self, Option.getD_some]
    rw [hget3]
    dsimp only
    have hccmem : cellS r g ++ "_count"
        ∈ (jset item (cellS r g ++ "_count") (JVal.num 0)).map Prod.fst := by
      rw [← jget_isSome_iff_mem_keys, jget_jset_self]
      rfl
    rw [jset_comm_of_mem _ _ _ _ _ (Ne.symm hne) hccmem]
    rw [jset_jset_self]
    rw [jset_comm_of_mem _ _ _ _ _ hne hgkmem]
    rw [hc]
    norm_num
  · rw [if_neg hc] at hgc
    have hget1 : getJ item (cellS r g ++ "_count") = JVal.num cnt := by
      rw [getJ, hgc, Option.getD_some]
    rw [hget1]
    have htr : (JVal.num (cnt : ℚ)).truthy = true := by
      rw [JVal.truthy]
      simp only [ne_eq, decide_eq_true_eq]
      exact_mod_cast hc
    rw [if_neg (by rw [htr]; decide)]
    have hget2 : getJ item (cellS r g) = JVal.num sumv := by
      rw [getJ, hgv, Option.getD_some]
    rw [hget2]
    simp only [JVal.add]
    have hget3 : getJ (jset item (cellS r g) (JVal.num (sumv + coerceCell y r)))
        (cellS r g ++ "_count") = JVal.num cnt := by
      rw [getJ, jget_jset_ne _ _ _ _ (Ne.symm hne), hgc, Option.getD_some]
    rw [hget3]

theorem avgStep_inv (x y g : String) (ux gs : List String) (done : List Row) (r : Row)
    (gd : JObj) (hcol : noCountCollisions gs x)
    (hrx : cellS r x ∈ ux) (hrg : cellS r g ∈ gs)
    (hinv : AvgInv x y g ux gs done gd) :
    AvgInv x y g ux gs (done ++ [r]) (groupedStep x y g "average" gd r) := by
  obtain ⟨hkeys, hitems⟩ := hinv
  obtain ⟨item, hj, hxf, hgf⟩ := hitems (cellS r x) hrx
  obtain ⟨hgv, hgc⟩ := hgf (cellS r g) hrg
  have hccne : cellS r g ++ "_count" ≠ cellS r g := by
    intro he
    exact (hcol _ hrg).1 (by rw [he]; exact hrg)
  have hsz := matchSum_of_cnt_zero done x y g (cellS r x) (cellS r g)
  rw [groupedStep_avg_eq x y g gd r item _ _ hj hgv hgc hccne hsz]
  constructor
  · rw [jset_keys_mem _ _ _ (by rw [hkeys]; exact hrx)]
    exact hkeys
  intro xv hxv
  by_cases hxx : cellS r x = xv
  · subst hxx
    refine ⟨_, jget_jset_self .., ?_, ?_⟩
    · intro hxgs
      have hx1 : x ≠ cellS r g := fun he => hxgs (he ▸ hrg)
      have hx2 : x ≠ cellS r g ++ "_count" := fun he => (hcol _ hrg).2 he.symm
      rw [jget_jset_ne _ _ _ _ (fun he => hx2 he.symm),
        jget_jset_ne _ _ _ _ (fun he => hx1 he.symm)]
      exact hxf hxgs
    · intro g' hg'
      by_cases hgg : cellS r g = g'
      · subst hgg
        constructor
        · rw [jget_jset_ne _ _ _ _ hccne, jget_jset_self]
          rw [matchSum_append_one,
            if_pos (show cellS r x = cellS r x ∧ cellS r g = cellS r g from ⟨rfl, rfl⟩)]
        · rw [jget_jset_self, matchCnt_append_one,
            if_pos (show cellS r x = cellS r x ∧ cellS r g = cellS r g from ⟨rfl, rfl⟩)]
          rw [if_neg (show ¬ (matchCnt done x g (cellS r x) (cellS r g) + 1 = 0) by omega)]
          push_cast
          norm_num
      · have hg'gk : cellS r g ≠ g' := hgg
        have hg'cc : cellS r g ++ "_count" ≠ g' := by
          intro he
          exact (hcol _ hrg).1 (by rw [he]; exact hg')
        have hg'c_gk : cellS r g ≠ g' ++ "_count" := by
          intro he
          exact (hcol _ hg').1 (by rw [← he]; exact hrg)
        have hg'c_cc : cellS r g ++ "_count" ≠ g' ++ "_count" := by
          intro he
          exact hg'gk (string_append_right_cancel _ _ _ he)
        obtain ⟨hv2, hc2⟩ := hgf g' hg'
        constructor
        · rw [jget_jset_ne _ _ _ _ hg'cc, jget_jset_ne _ _ _ _ hg'gk]
          rw [matchSum_append_one,
            if_neg (show ¬ (cellS r x = cellS r x ∧ cellS r g = g') from
              fun hcc => hgg hcc.2), add_zero]
          exact hv2
        · rw [jget_jset_ne _ _ _ _ hg'c_cc, jget_jset_ne _ _ _ _ hg'c_gk]
          rw [matchCnt_append_one,
            if_neg (show ¬ (cellS r x = cellS r x ∧ cellS r g = g') from
              fun hcc => hgg hcc.2), Nat.add_zero]
          exact hc2
  · obtain ⟨item2, hj2, hxf2, hgf2⟩ := hitems xv hxv
    refine ⟨item2, by rw [jget_jset_ne _ _ _ _ hxx]; exact hj2, hxf2, ?_⟩
    intro g' hg'
    obtain ⟨hv2, hc2⟩ := hgf2 g' hg'
    constructor
    · rw [matchSum_append_one,
        if_neg (show ¬ (cellS r x = xv ∧ cellS r g = g') from fun hcc => hxx hcc.1),
        add_zero]
      exact hv2
    · rw [matchCnt_append_one,
        if_neg (show ¬ (cellS r x = xv ∧ cellS r g = g') from fun hcc => hxx hcc.1),
        Nat.add_zero]
      exact hc2

theorem avgFold_inv (x y g : String) (ux gs : List String) (rows : List Row)
    (hcol : noCountCollisions gs x)
    (hmem : ∀ r ∈ rows, cellS r x ∈ ux ∧ cellS r g ∈ gs) :
    ∀ done gd, AvgInv x y g ux gs done gd →
      AvgInv x y g ux gs (done ++ rows) (rows.foldl (groupedStep x y g "average") gd) := by
  induction rows with
  | nil =>
    intro done gd h
    simpa using h
  | cons r rest ih =>
    intro done gd h
    rw [List.foldl_cons]
    obtain ⟨h1, h2⟩ := hmem r (List.mem_cons_self _ _)
    have hstep := avgStep_inv x y g ux gs done r gd hcol h1 h2 h
    have h3 := ih (fun r hr => hmem r (List.mem_cons_of_mem _ hr)) (done ++ [r]) _ hstep
    rwa [List.append_assoc] at h3

theorem avgFinalize_untouched : ∀ (pending : List String) (item : JRecord) (k : String),
    k ∉ pending → (∀ g' ∈ pending, k ≠ g' ++ "_count") →
    jget (avgFinalize pending item) k = jget item k
  | [], _, _, _, _ => rfl
  | g0 :: rest, item, k, hk, hkc => by
    have hk' : k ∉ rest := fun h => hk (List.mem_cons_of_mem _ h)
    have hkc' : ∀ g' ∈ rest, k ≠ g' ++ "_count" :=
      fun g' h => hkc g' (List.mem_cons_of_mem _ h)
    have hkg0 : k ≠ g0 := fun he => hk (he ▸ List.mem_cons_self g0 rest)
    have hkg0c : k ≠ g0 ++ "_count" := hkc g0 (List.mem_cons_self _ _)
    have hstep : avgFinalize (g0 :: rest) item
        = avgFinalize rest (jdel (jset item g0
            ((getJ item g0).div ((getJ item (g0 ++ "_count")).orOne))) (g0 ++ "_count")) :=
      rfl
    rw [hstep, avgFinalize_untouched rest _ k hk' hkc',
      jget_jdel_ne _ _ _ (Ne.symm hkg0c), jget_jset_ne _ _ _ _ (Ne.symm hkg0)]

theorem avgFinalize_vals (x y g : String) (data : List Row) (xv : String)
    (gsAll : List String) (hcol : noCountCollisions gsAll x) :
    ∀ (pending : List String), pending.Nodup → (∀ p ∈ pending, p ∈ gsAll) →
    ∀ item : JRecord,
      (∀ g' ∈ pending,
        jget item g' = some (.num (matchSum data x y g xv g'))
        ∧ jget item (g' ++ "_count")
            = (if matchCnt data x g xv g' = 0 then none
               else some (.num (matchCnt data x g xv g')))) →
      ∀ g' ∈ pending,
        jget (avgFinalize pending item) g'
          = some (.num (if matchCnt data x g xv g' = 0 then 0
              else matchSum data x y g xv g' / (matchCnt data x g xv g' : ℚ)))
        ∧ jget (avgFinalize pending item) (g' ++ "_count") = none := by
  intro pending
  induction pending with
  | nil =>
    intro _ _ item _ g' hg'
    simp at hg'
  | cons g0 rest ih =>
    intro hnd hsub item hvals g' hg'
    rw [List.nodup_cons] at hnd
    obtain ⟨hv0, hc0⟩ := hvals g0 (List.mem_cons_self _ _)
    have hg0gs := hsub g0 (List.mem_cons_self _ _)
    have hg0c_notin : (g0 ++ "_count") ∉ gsAll := (hcol g0 hg0gs).1
    have hg0c_ne_g0 : g0 ++ "_count" ≠ g0 := fun he => hg0c_notin (by rw [he]; exact hg0gs)
    have hdiv : (getJ item g0).div ((getJ item (g0 ++ "_count")).orOne)
        = JVal.num (if matchCnt data x g xv g0 = 0 then 0
            else matchSum data x y g xv g0 / (matchCnt data x g xv g0 : ℚ)) := by
      rw [getJ, hv0, Option.getD_some, getJ, hc0]
      by_cases hz : matchCnt data x g xv g0 = 0
      · rw [if_pos hz, if_pos hz, matchSum_of_cnt_zero data x y g xv g0 hz]
        have h1 : ((none : Option JVal).getD JVal.nan).orOne = JVal.num 1 := rfl
        rw [h1, JVal.div, if_neg (by norm_num : ¬ (1 : ℚ) = 0)]
        norm_num
      · rw [if_neg hz, if_neg hz, Option.getD_some]
        have htr : (JVal.num (matchCnt data x g xv g0 : ℚ)).truthy = true := by
          rw [JVal.truthy]
          simp only [ne_eq, decide_eq_true_eq]
          exact_mod_cast hz
        rw [JVal.orOne, if_pos htr, JVal.div,
          if_neg (Nat.cast_ne_zero.mpr hz : ¬ ((matchCnt data x g xv g0 : ℚ) = 0))]
    have hstep : avgFinalize (g0 :: rest) item
        = avgFinalize rest (jdel (jset item g0
            ((getJ item g0).div ((getJ item (g0 ++ "_count")).orOne))) (g0 ++ "_count")) :=
      rfl
    rcases List.mem_cons.mp hg' with rfl | hg'rest
    · constructor
      · rw [hstep]
        rw [avgFinalize_untouched rest _ g' hnd.1 (fun g'' hg'' => by
          intro he
          exact ((hcol g'' (hsub g'' (List.mem_cons_of_mem _ hg''))).1) (by
            rw [← he]; exact hg0gs))]
        rw [jget_jdel_ne _ _ _ hg0c_ne_g0, jget_jset_self, hdiv]
      · rw [hstep]
        have hcnr : (g' ++ "_count") ∉ rest := fun h =>
          hg0c_notin (hsub _ (List.mem_cons_of_mem _ h))
        rw [avgFinalize_untouched rest _ (g' ++ "_count") hcnr (fun g'' hg'' => by
          intro he
          exact hnd.1 ((string_append_right_cancel _ _ _ he) ▸ hg''))]
        rw [jget_jdel_self]
    · have hvals' : ∀ g'' ∈ rest,
          jget (jdel (jset item g0
            ((getJ item g0).div ((getJ item (g0 ++ "_count")).orOne))) (g0 ++ "_count")) g''
            = some (.num (matchSum data x y g xv g''))
          ∧ jget (jdel (jset item g0
            ((getJ item g0).div ((getJ item (g0 ++ "_count")).orOne))) (g0 ++ "_count"))
              (g'' ++ "_count")
            = (if matchCnt data x g xv g'' = 0 then none
               else some (.num (matchCnt data x g xv g''))) := by
        intro g'' hg''
        have hgg0 : g'' ≠ g0 := fun he => hnd.1 (he ▸ hg'')
        have hgg0c : g'' ≠ g0 ++ "_count" := fun he =>
          hg0c_notin (he ▸ hsub g'' (List.mem_cons_of_mem _ hg''))
        have hcc0 : g'' ++ "_count" ≠ g0 := fun he =>
          (hcol g'' (hsub g'' (List.mem_cons_of_mem _ hg''))).1 (by rw [he]; exact hg0gs)
        have hcccc : g'' ++ "_count" ≠ g0 ++ "_count" := fun he =>
          hgg0 (string_append_right_cancel _ _ _ he)
        obtain ⟨hva, hvb⟩ := hvals g'' (List.mem_cons_of_mem _ hg'')
        constructor
        · rw [jget_jdel_ne _ _ _ (fun he => hgg0c he.symm),
            jget_jset_ne _ _ _ _ (fun he => hgg0 he.symm)]
          exact hva
        · rw [jget_jdel_ne _ _ _ (fun he => hcccc he.symm),
            jget_jset_ne _ _ _ _ (fun he => hcc0 he.symm)]
          exact hvb
      rw [hstep]
      exact ih hnd.2 (fun p hp => hsub p (List.mem_cons_of_mem _ hp)) _ hvals' g' hg'rest

theorem matchRows_nil (x g xv gv : String) : matchRows [] x g xv gv = [] := rfl

theorem accVal_nil (t : String) (x y g xv gv : String) : accVal t [] x y g xv gv = 0 := by
  rw [accVal]
  by_cases ht : t = "count"
  · rw [if_pos ht]
    rfl
  · rw [if_neg ht]
    rfl

theorem keys_map_snd (f : JRecord → JRecord) (o : JObj) :
    (o.map (fun p => (p.1, f p.2))).map Prod.fst = o.map Prod.fst := by
  induction o with
  | nil => rfl
  | cons p ps ih => simp [ih]

theorem jget_map_snd (f : JRecord → JRecord) (o : JObj) (k : String) :
    jget (o.map (fun p => (p.1, f p.2))) k = (jget o k).map f := by
  induction o with
  | nil => rfl
  | cons p ps ih =>
    by_cases hk : p.1 = k
    · rw [List.map_cons]
      rw [show (p.1, f p.2).1 = p.1 from rfl] at *
      rw [jget_cons, jget_cons, if_pos hk, if_pos hk]
      rfl
    · rw [List.map_cons, jget_cons, jget_cons, if_neg hk, if_neg hk, ih]

theorem filterMap_getD_of_mem (o : JObj) :
    ∀ l : List String, (∀ k ∈ l, ∃ v, jget o k = some v) →
      l.filterMap (fun k => jget o k) = l.map (fun k => (jget o k).getD []) := by
  intro l
  induction l with
  | nil => intro _; rfl
  | cons k ks ih =>
    intro h
    obtain ⟨v, hv⟩ := h k (List.mem_cons_self _ _)
    rw [List.filterMap_cons, hv, List.map_cons, hv, Option.getD_some,
      ih (fun k' hk' => h k' (List.mem_cons_of_mem _ hk'))]

/-- The value `prepareGroupedData` leaves in the (x-value, group-value) cell:
the running aggregate for `sum`/`count`/other transforms, and the finalized
quotient (0 for an empty cell) for `average`. -/
def cellVal (t : String) (data : List Row) (x y g xv gv : String) : ℚ :=
  if t = "average" then
    (if matchCnt data x g xv gv = 0 then 0
     else matchSum data x y g xv gv / (matchCnt data x g xv gv : ℚ))
  else accVal t data x y g xv gv

theorem prepareGroupedData_spec (data : List Row) (x y g t : String)
    (ux gs : List String)
    (hux : ux = sortStr (dedupFirst (data.map (fun r => cellS r x))))
    (hgs : gs = dedupFirst (data.map (fun r => cellS r g))) :
    ∃ recOf : String → JRecord,
      prepareGroupedData data x y g t = (jsOrderKeys ux).map recOf
      ∧ ((t = "average" → noCountCollisions gs x) →
          ∀ xv ∈ ux,
            (x ∉ gs → jget (recOf xv) x = some (.str xv))
            ∧ ∀ g' ∈ gs,
                jget (recOf xv) g' = some (.num (cellVal t data x y g xv g'))
                ∧ (t = "average" → jget (recOf xv) (g' ++ "_count") = none)) := by
  have hnux : ux.Nodup := by
    rw [hux]
    exact (sortStr_perm _).nodup_iff.mpr (nodup_dedupFirst _)
  have hngs : gs.Nodup := by
    rw [hgs]
    exact nodup_dedupFirst _
  have hmem : ∀ r ∈ data, cellS r x ∈ ux ∧ cellS r g ∈ gs := by
    intro r hr
    rw [hux, hgs, mem_sortStr, mem_dedupFirst, mem_dedupFirst]
    exact ⟨List.mem_map.mpr ⟨r, hr, rfl⟩, List.mem_map.mpr ⟨r, hr, rfl⟩⟩
  obtain ⟨hkeys0, hget0, -⟩ :=
    groupedInit_aux x gs ux [] (by intro xv _; simp) hnux
  have hkeys0' : (groupedInit x ux gs).map Prod.fst = ux := by
    rw [groupedInit]
    simpa using hkeys0
  have hPGD : prepareGroupedData data x y g t
      = jsValues (if t = "average"
          then (data.foldl (groupedStep x y g t) (groupedInit x ux gs)).map
            (fun p => (p.1, avgFinalize gs p.2))
          else data.foldl (groupedStep x y g t) (groupedInit x ux gs)) := by
    rw [hux, hgs]
    rfl
  have hkeysF : ((if t = "average"
      then (data.foldl (groupedStep x y g t) (groupedInit x ux gs)).map
        (fun p => (p.1, avgFinalize gs p.2))
      else data.foldl (groupedStep x y g t) (groupedInit x ux gs)) : JObj).map Prod.fst
      = ux := by
    by_cases ht : t = "average"
    · rw [if_pos ht, keys_map_snd, groupedFold_keys, hkeys0']
    · rw [if_neg ht, groupedFold_keys, hkeys0']
  refine ⟨fun xv => (jget (if t = "average"
      then (data.foldl (groupedStep x y g t) (groupedInit x ux gs)).map
        (fun p => (p.1, avgFinalize gs p.2))
      else data.foldl (groupedStep x y g t) (groupedInit x ux gs)) xv).getD [],
    ?_, ?_⟩
  · rw [hPGD, jsValues, hkeysF]
    refine filterMap_getD_of_mem _ _ (fun k hk => ?_)
    refine Option.isSome_iff_exists.mp ((jget_isSome_iff_mem_keys _ _).mpr ?_)
    rw [hkeysF]
    exact (mem_jsOrderKeys k _).mp hk
  · intro hcolI
    by_cases ht : t = "average"
    · subst ht
      have hcol' := hcolI rfl
      have hinv0 : AvgInv x y g ux gs [] (groupedInit x ux gs) := by
        refine ⟨hkeys0', ?_⟩
        intro xv hxv
        refine ⟨seedRecord x gs xv, hget0 xv hxv, fun hx => seedRecord_x x gs xv hx, ?_⟩
        intro g' hg'
        constructor
        · have h0 : matchSum ([] : List Row) x y g xv g' = 0 := rfl
          rw [h0]
          exact seedRecord_group x gs xv g' hg'
        · have h0 : matchCnt ([] : List Row) x g xv g' = 0 := rfl
          rw [h0, if_pos rfl]
          exact seedRecord_none x gs xv (g' ++ "_count") (hcol' g' hg').1 (hcol' g' hg').2
      have hinv1 := avgFold_inv x y g ux gs data hcol' hmem [] _ hinv0
      rw [List.nil_append] at hinv1
      obtain ⟨hkeys1, hitems1⟩ := hinv1
      intro xv hxv
      dsimp only
      rw [if_pos rfl]
      obtain ⟨item, hit, hxf, hgf⟩ := hitems1 xv hxv
      have hit2 : jget ((data.foldl (groupedStep x y g "average")
          (groupedInit x ux gs)).map (fun p => (p.1, avgFinalize gs p.2))) xv
          = some (avgFinalize gs item) := by
        rw [jget_map_snd, hit]
        rfl
      rw [hit2]
      have hfin := avgFinalize_vals x y g data xv gs hcol' gs hngs (fun p hp => hp)
        item hgf
      refine ⟨fun hx => ?_, fun g' hg' => ?_⟩
      · rw [Option.getD_some]
        rw [avgFinalize_untouched gs item x hx
          (fun g' hg' he => (hcol' g' hg').2 he.symm)]
        exact hxf hx
      · obtain ⟨hv, hc⟩ := hfin g' hg'
        rw [Option.getD_some]
        refine ⟨?_, fun _ => hc⟩
        rw [hv, cellVal, if_pos rfl]
    · have hinv0 : SimpleInv x y g t ux gs [] (groupedInit x ux gs) := by
        refine ⟨hkeys0', ?_⟩
        intro xv hxv
        refine ⟨seedRecord x gs xv, hget0 xv hxv, fun hx => seedRecord_x x gs xv hx, ?_⟩
        intro g' hg'
        rw [accVal_nil]
        exact seedRecord_group x gs xv g' hg'
      have hinv1 := simpleFold_inv x y g t ux gs data ht hmem [] _ hinv0
      rw [List.nil_append] at hinv1
      obtain ⟨hkeys1, hitems1⟩ := hinv1
      intro xv hxv
      dsimp only
      rw [if_neg ht]
      obtain ⟨item, hit, hxf, hgf⟩ := hitems1 xv hxv
      rw [hit]
      refine ⟨fun hx => by rw [Option.getD_some]; exact hxf hx, fun g' hg' => ?_⟩
      refine ⟨?_, fun hta => absurd hta ht⟩
      rw [Option.getD_some, cellVal, if_neg ht]
      exact hgf g' hg'

theorem cellVal_of_cnt_zero (t : String) (data : List Row) (x y g xv gv : String)
    (h : matchCnt data x g xv gv = 0) : cellVal t data x y g xv gv = 0 := by
  rw [cellVal]
  by_cases ht : t = "average"
  · rw [if_pos ht, if_pos h]
  · rw [if_neg ht, accVal]
    by_cases hc : t = "count"
    · rw [if_pos hc, h]
      norm_num
    · rw [if_neg hc]
      exact matchSum_of_cnt_zero data x y g xv gv h

/-- Rows whose x-values are the strings "2" and "10": both are canonical
array-index keys, so `Object.values` enumerates them numerically. -/
def d2 : List Row :=
  [[("x", "2"), ("g", "a"), ("y", "1")], [("x", "10"), ("g", "a"), ("y", "2")]]

/-- Rows whose group values are "a_count" and "a": the synthesized count key
of group "a" collides with the group field "a_count". -/
def d3 : List Row :=
  [[("x", "1"), ("g", "a_count"), ("y", "7")], [("x", "1"), ("g", "a"), ("y", "10")]]

/-- Rows with groups "a" and "a_count" on different x-values, so the
(x = "1", group = "a_count") cell matches no row. -/
def d10 : List Row :=
  [[("x", "1"), ("g", "a"), ("y", "3")], [("x", "2"), ("g", "a_count"), ("y", "4")]]

/-- Counterexample to the ordering conjunct of C2: the lexicographically
sorted x-values of `d2` are `["10", "2"]`, yet the grouped output lists the
record of x-value "2" first, because `Object.values` re-enumerates
array-index keys in ascending numeric order. -/
theorem grouped_output_defies_lex_order :
    sortStr (dedupFirst (d2.map (fun r => cellS r "x"))) = ["10", "2"]
    ∧ (prepareGroupedData d2 "x" "y" "g" "sum").map (fun rec => jget rec "x")
      = [some (.str "2"), some (.str "10")] := by
  constructor
  · rfl
  · rfl

/-- C2 (amended): for every row set and grouped chart specification, the
output has exactly one record per distinct x-value, for every transform; the
records follow the distinct x-values in `Object.values` enumeration order
(array-index-like x-values first in ascending numeric order, the rest in
lexicographic order) rather than plain lexicographic order; and every record
holds one numeric field per distinct group value — for `average` provided no
synthesized `_count` key collides with a group value or the x column — which
is the explicit 0 whenever that (x-value, group-value) cell matches no
row. -/
theorem grouped_shape_order_and_seeding (data : List Row) (x y g t : String) :
    (prepareGroupedData data x y g t).length
      = (dedupFirst (data.map (fun r => cellS r x))).length
    ∧ ∃ recOf : String → JRecord,
        prepareGroupedData data x y g t
          = (jsOrderKeys (sortStr (dedupFirst (data.map (fun r => cellS r x))))).map recOf
        ∧ ((t = "average" →
              noCountCollisions (dedupFirst (data.map (fun r => cellS r g))) x) →
            ∀ xv ∈ sortStr (dedupFirst (data.map (fun r => cellS r x))),
              ∀ g' ∈ dedupFirst (data.map (fun r => cellS r g)),
                (∃ q : ℚ, jget (recOf xv) g' = some (.num q))
                ∧ (matchCnt data x g xv g' = 0 →
                    jget (recOf xv) g' = some (.num 0))) := by
  obtain ⟨recOf, hmap, hcells⟩ :=
    prepareGroupedData_spec data x y g t _ _ rfl rfl
  have hlen : (prepareGroupedData data x y g t).length
      = (dedupFirst (data.map (fun r => cellS r x))).length := by
    rw [hmap, List.length_map, length_jsOrderKeys, (sortStr_perm _).length_eq]
  refine ⟨hlen, recOf, hmap, fun hcolI xv hxv g' hg' => ?_⟩
  obtain ⟨-, hgf⟩ := hcells hcolI xv hxv
  obtain ⟨hv, -⟩ := hgf g' hg'
  exact ⟨⟨cellVal t data x y g xv g', hv⟩,
    fun hz => by rw [hv, cellVal_of_cnt_zero t data x y g xv g' hz]⟩

/-- Witness for C2 at the specification's worked example (the seeding
conjunct's average-transform proviso holds there). -/
theorem grouped_shape_order_and_seeding_witness :
    noCountCollisions (dedupFirst (exampleRows.map (fun r => cellS r "region"))) "month"
    ∧ (prepareGroupedData exampleRows "month" "sales" "region" "average").length
      = (dedupFirst (exampleRows.map (fun r => cellS r "month"))).length :=
  ⟨by unfold noCountCollisions; decide,
    (grouped_shape_order_and_seeding exampleRows "month" "sales" "region" "average").1⟩

/-- Counterexample to C3: in `d3` group "a" synthesizes the count key
"a_count", which is itself a group value; the (x = "1", group = "a") cell
matches one row of y-value 10, so the claimed output is 10/1 = 10, but the
corrupted counter makes the code emit 5/4 instead. -/
theorem grouped_average_collision_breaks_ratio :
    matchCnt d3 "x" "g" "1" "a" = 1
    ∧ matchSum d3 "x" "y" "g" "1" "a" = 10
    ∧ ∃ rec ∈ prepareGroupedData d3 "x" "y" "g" "average",
        jget rec "x" = some (.str "1") ∧ jget rec "a" = some (.num (5 / 4)) := by
  refine ⟨rfl, by decide, ?_⟩
  decide

/-- C3 (amended): for `dataTransform = average`, provided no synthesized
`${group}_count` key collides with a group value or the x column, every
(x-value, group-value) cell that matches at least one row carries exactly
(sum of coerced y-values of the matching rows) / (number of matching rows),
and no record of the output contains a `${group}_count` key. -/
theorem grouped_average_ratio_and_hidden_counts (data : List Row) (x y g : String)
    (hcol : noCountCollisions (dedupFirst (data.map (fun r => cellS r g))) x) :
    ∃ recOf : String → JRecord,
      prepareGroupedData data x y g "average"
        = (jsOrderKeys (sortStr (dedupFirst (data.map (fun r => cellS r x))))).map recOf
      ∧ ∀ xv ∈ sortStr (dedupFirst (data.map (fun r => cellS r x))),
          ∀ g' ∈ dedupFirst (data.map (fun r => cellS r g)),
            (0 < matchCnt data x g xv g' →
              jget (recOf xv) g'
                = some (.num (matchSum data x y g xv g'
                    / (matchCnt data x g xv g' : ℚ))))
            ∧ jget (recOf xv) (g' ++ "_count") = none := by
  obtain ⟨recOf, hmap, hcells⟩ :=
    prepareGroupedData_spec data x y g "average" _ _ rfl rfl
  refine ⟨recOf, hmap, ?_⟩
  intro xv hxv g' hg'
  obtain ⟨-, hgf⟩ := hcells (fun _ => hcol) xv hxv
  obtain ⟨hv, hc⟩ := hgf g' hg'
  refine ⟨fun hpos => ?_, hc rfl⟩
  rw [hv, cellVal, if_pos rfl, if_neg (Nat.pos_iff_ne_zero.mp hpos)]

/-- Witness for C3 at the specification's worked example. -/
theorem grouped_average_ratio_and_hidden_counts_witness :
    noCountCollisions (dedupFirst (exampleRows.map (fun r => cellS r "region"))) "month"
    ∧ ∃ recOf : String → JRecord,
        prepareGroupedData exampleRows "month" "sales" "region" "average"
          = (jsOrderKeys (sortStr (dedupFirst
              (exampleRows.map (fun r => cellS r "month"))))).map recOf
        ∧ ∀ xv ∈ sortStr (dedupFirst (exampleRows.map (fun r => cellS r "month"))),
            ∀ g' ∈ dedupFirst (exampleRows.map (fun r => cellS r "region")),
              (0 < matchCnt exampleRows "month" "region" xv g' →
                jget (recOf xv) g'
                  = some (.num (matchSum exampleRows "month" "sales" "region" xv g'
                      / (matchCnt exampleRows "month" "region" xv g' : ℚ))))
              ∧ jget (recOf xv) (g' ++ "_count") = none :=
  ⟨by unfold noCountCollisions; decide,
    grouped_average_ratio_and_hidden_counts exampleRows "month" "sales" "region"
      (by unfold noCountCollisions; decide)⟩

/-- Counterexample to C10: in `d10` the (x = "1", group = "a_count") cell
matches no row, yet the colliding count bookkeeping makes the finalize pass
divide a deleted (undefined) cell, emitting `NaN` instead of 0. -/
theorem grouped_average_empty_cell_nan :
    matchCnt d10 "x" "g" "1" "a_count" = 0
    ∧ ∃ rec ∈ prepareGroupedData d10 "x" "y" "g" "average",
        jget rec "x" = some (.str "1") ∧ jget rec "a_count" = some JVal.nan := by
  refine ⟨rfl, ?_⟩
  decide

/-- C10 (amended): for `dataTransform = average`, provided no synthesized
`${group}_count` key collides with a group value or the x column, a
pre-seeded (x-value, group-value) cell matching zero rows yields the explicit
number 0 in its output record — never `NaN`, `undefined` or a missing
field — so grouped-average records are total over the enumerated groups. -/
theorem grouped_average_empty_cell_zero (data : List Row) (x y g : String)
    (hcol : noCountCollisions (dedupFirst (data.map (fun r => cellS r g))) x) :
    ∃ recOf : String → JRecord,
      prepareGroupedData data x y g "average"
        = (jsOrderKeys (sortStr (dedupFirst (data.map (fun r => cellS r x))))).map recOf
      ∧ ∀ xv ∈ sortStr (dedupFirst (data.map (fun r => cellS r x))),
          ∀ g' ∈ dedupFirst (data.map (fun r => cellS r g)),
            matchCnt data x g xv g' = 0 →
              jget (recOf xv) g' = some (.num 0) := by
  obtain ⟨recOf, hmap, hcells⟩ :=
    prepareGroupedData_spec data x y g "average" _ _ rfl rfl
  refine ⟨recOf, hmap, fun xv hxv g' hg' hz => ?_⟩
  obtain ⟨-, hgf⟩ := hcells (fun _ => hcol) xv hxv
  obtain ⟨hv, -⟩ := hgf g' hg'
  rw [hv, cellVal_of_cnt_zero _ _ _ _ _ _ _ hz]

/-- Witness for C10 at the specification's worked example (the
(month = "Feb", region = "west") cell matches no row there). -/
theorem grouped_average_empty_cell_zero_witness :
    noCountCollisions (dedupFirst (exampleRows.map (fun r => cellS r "region"))) "month"
    ∧ matchCnt exampleRows "month" "region" "Feb" "west" = 0
    ∧ ∃ recOf : String → JRecord,
        prepareGroupedData exampleRows "month" "sales" "region" "average"
          = (jsOrderKeys (sortStr (dedupFirst
              (exampleRows.map (fun r => cellS r "month"))))).map recOf
        ∧ ∀ xv ∈ sortStr (dedupFirst (exampleRows.map (fun r => cellS r "month"))),
            ∀ g' ∈ dedupFirst (exampleRows.map (fun r => cellS r "region")),
              matchCnt exampleRows "month" "region" xv g' = 0 →
                jget (recOf xv) g' = some (.num 0) :=
  ⟨by unfold noCountCollisions; decide, rfl,
    grouped_average_empty_cell_zero exampleRows "month" "sales" "region"
      (by unfold noCountCollisions; decide)⟩
